import Mathlib

/-!
# Verification of the ELRO Connects realtime client

Shallow embedding of `custom_components/elro_connects_realtime`
(`k2_codec.py`, `hub.py`, `device.py`) and proofs about it.

Conventions of the embedding:
* Python `str` values are modelled as `List Char`; Python `bytes` as
  `List Nat` together with the hypothesis that every element is `< 256`.
* `json.dumps(d, separators=(",", ":"))` / `json.loads` are modelled over the
  JSON fragment actually exchanged by the protocol: objects, strings without
  escape sequences (printable ASCII, no `"` or backslash), integer numerals,
  booleans and null.  Arrays, floats and string escapes are outside the
  modelled fragment.
* `int(x, 16)` is modelled as strict hexadecimal parsing (no sign, no `0x`
  prefix, no whitespace), `bytes.fromhex` as strict hex-pair parsing; the
  protocol payload slices the code feeds them contain plain hex digits only.
* Asynchronous control flow is sequentialised; socket operations consume a
  `List Bool` oracle of I/O outcomes (`true` = success), and an exception is
  an `Option IOErr` result.
-/

/-- The characters of a string literal (helper; Python `str` is `List Char`). -/
def chars (s : String) : List Char := s.data

/-- Python slice `s[i:j]` for `0 ≤ i ≤ j`. -/
def pySlice (i j : Nat) (l : List Char) : List Char := (l.drop i).take (j - i)

/-- Decimal digit test, `'0' ≤ c ≤ '9'`. -/
def isDig (c : Char) : Bool := 48 ≤ c.toNat && c.toNat ≤ 57

/-- Whether a character list starts with a decimal digit. -/
def headIsDig : List Char → Bool
  | [] => false
  | c :: _ => isDig c

/-- The decimal digit character for `d < 10`. -/
def digitChar (d : Nat) : Char :=
  match d with
  | 0 => '0' | 1 => '1' | 2 => '2' | 3 => '3' | 4 => '4'
  | 5 => '5' | 6 => '6' | 7 => '7' | 8 => '8' | _ => '9'

/-- Hexadecimal value of a character, accepting both cases (as `int(_, 16)`). -/
def hexDigVal (c : Char) : Option Nat :=
  if '0' ≤ c && c ≤ '9' then some (c.toNat - 48)
  else if 'a' ≤ c && c ≤ 'f' then some (c.toNat - 87)
  else if 'A' ≤ c && c ≤ 'F' then some (c.toNat - 55)
  else none

/-- Lowercase hex digit for `d < 16` (as produced by Python `%x` formatting). -/
def hexDigChar (d : Nat) : Char :=
  match d with
  | 0 => '0' | 1 => '1' | 2 => '2' | 3 => '3' | 4 => '4'
  | 5 => '5' | 6 => '6' | 7 => '7' | 8 => '8' | 9 => '9'
  | 10 => 'a' | 11 => 'b' | 12 => 'c' | 13 => 'd' | 14 => 'e' | _ => 'f'

/-- Python `f"{b:02x}"` for a byte `b < 256`: exactly two lowercase hex digits. -/
def toHex2 (b : Nat) : List Char := [hexDigChar (b / 16 % 16), hexDigChar (b % 16)]

/-- `int(x, 16)` on a plain hex string: `none` when empty or containing a
non-hex character (Python raises `ValueError` there). -/
def hexNat : List Char → Option Nat
  | [] => none
  | l => l.foldl (fun acc c => acc.bind fun a => (hexDigVal c).map (a * 16 + ·)) (some 0)

/-- `bytes.fromhex`: strict pairs of hex digits. -/
def hexPairs : List Char → Option (List Nat)
  | [] => some []
  | [_] => none
  | c1 :: c2 :: t =>
    match hexDigVal c1, hexDigVal c2 with
    | some a, some b => (hexPairs t).map ((a * 16 + b) :: ·)
    | _, _ => none

/-- Decimal digits of a natural number, most significant first. -/
def natDigs (n : Nat) : List Char :=
  if _h : n < 10 then [digitChar n]
  else natDigs (n / 10) ++ [digitChar (n % 10)]
termination_by n
decreasing_by exact Nat.div_lt_self (by omega) (by omega)

/-- Python `repr` of an integer (as emitted by `json.dumps`). -/
def intChars (n : Int) : List Char :=
  if n < 0 then '-' :: natDigs (-n).toNat else natDigs n.toNat

/-- Consume a maximal run of decimal digits, accumulating their value. -/
def digitsGo (acc : Nat) : List Char → Nat × List Char
  | [] => (acc, [])
  | c :: t => if isDig c then digitsGo (acc * 10 + (c.toNat - 48)) t else (acc, c :: t)

mutual
/-- The JSON fragment exchanged on the wire: null, booleans, integers,
escape-free strings and objects. -/
inductive Json where
  | null : Json
  | bool (b : Bool) : Json
  | num (n : Int) : Json
  | str (s : List Char) : Json
  | obj (ms : Members) : Json
deriving DecidableEq

/-- Object members, in serialization order. -/
inductive Members where
  | nil : Members
  | cons (k : List Char) (v : Json) (t : Members) : Members
deriving DecidableEq
end

mutual
/-- Structural size used as parser fuel bound. -/
def jsize : Json → Nat
  | .null | .bool _ | .num _ | .str _ => 1
  | .obj ms => 1 + msize ms

/-- Structural size of a member list. -/
def msize : Members → Nat
  | .nil => 1
  | .cons _ v t => 1 + jsize v + msize t
end

mutual
/-- `json.dumps(m, separators=(",", ":"))` on the modelled fragment. -/
def dumps : Json → List Char
  | .null => chars "null"
  | .bool true => chars "true"
  | .bool false => chars "false"
  | .num n => intChars n
  | .str s => '"' :: (s ++ ['"'])
  | .obj ms => '{' :: dumpsMembers ms

/-- Members rendered as `"k":v` joined by `,`, closed by `}` (an empty member
list renders as the bare closing brace, giving `{}`). -/
def dumpsMembers : Members → List Char
  | .nil => ['}']
  | .cons k v t =>
    ('"' :: (k ++ ['"', ':'])) ++ dumps v ++
      (match t with
       | .nil => ['}']
       | .cons _ _ _ => ',' :: dumpsMembers t)
end

/-- A character that `json.dumps` emits without escaping and that is valid
unescaped inside a `json.loads` string: printable ASCII other than `"` `\`. -/
def safeChar (c : Char) : Bool :=
  32 ≤ c.toNat && c.toNat ≤ 126 && c ≠ '"' && c ≠ '\\'

mutual
/-- Well-formedness: every string in the value is escape-free ASCII. -/
def wfJ : Json → Bool
  | .null | .bool _ | .num _ => true
  | .str s => s.all safeChar
  | .obj ms => wfM ms

/-- Well-formedness for member lists. -/
def wfM : Members → Bool
  | .nil => true
  | .cons k v t => k.all safeChar && wfJ v && wfM t
end

/-- Scan a string body up to the closing quote (escape-free fragment). -/
def parseStringBody : List Char → Option (List Char × List Char)
  | [] => none
  | '"' :: rest => some ([], rest)
  | c :: rest => (parseStringBody rest).map (fun p => (c :: p.1, p.2))

mutual
/-- Recursive-descent parser for the modelled JSON fragment, as accepted by
`json.loads` on it (leading zeros rejected; whitespace not expected because
callers pass stripped compact text). -/
def parseValue : Nat → List Char → Option (Json × List Char)
  | 0, _ => none
  | _ + 1, [] => none
  | f + 1, c :: cs =>
    if c = '{' then
      match cs with
      | '}' :: r => some (.obj .nil, r)
      | _ =>
        match parseMembers f cs with
        | some (ms, r) => some (.obj ms, r)
        | none => none
    else if c = '"' then
      match parseStringBody cs with
      | some (s, r) => some (.str s, r)
      | none => none
    else if c = 'n' then
      match cs with
      | 'u' :: 'l' :: 'l' :: r => some (.null, r)
      | _ => none
    else if c = 't' then
      match cs with
      | 'r' :: 'u' :: 'e' :: r => some (.bool true, r)
      | _ => none
    else if c = 'f' then
      match cs with
      | 'a' :: 'l' :: 's' :: 'e' :: r => some (.bool false, r)
      | _ => none
    else if c = '-' then
      match cs with
      | d :: ds =>
        if isDig d then
          if d = '0' && headIsDig ds then none
          else
            let p := digitsGo 0 (d :: ds)
            some (.num (-(p.1 : Int)), p.2)
        else none
      | [] => none
    else if isDig c then
      if c = '0' && headIsDig cs then none
      else
        let p := digitsGo 0 (c :: cs)
        some (.num (p.1 : Int), p.2)
    else none

/-- Parse the members of a non-empty object, after the opening `{`. -/
def parseMembers : Nat → List Char → Option (Members × List Char)
  | 0, _ => none
  | f + 1, cs =>
    match cs with
    | '"' :: cs1 =>
      match parseStringBody cs1 with
      | some (k, r1) =>
        match r1 with
        | ':' :: r2 =>
          match parseValue f r2 with
          | some (v, r3) =>
            match r3 with
            | ',' :: r4 =>
              (match parseMembers f r4 with
               | some (ms, r5) => some (.cons k v ms, r5)
               | none => none)
            | '}' :: r4 => some (.cons k v .nil, r4)
            | _ => none
          | none => none
        | _ => none
      | none => none
    | _ => none
end

/-- `json.loads` on the modelled fragment: full input must be consumed. -/
def jsonParse (l : List Char) : Option Json :=
  match parseValue (l.length + 1) l with
  | some (j, []) => some j
  | _ => none

/-- UTF-8 encoding of one character (`str.encode("utf-8")`). -/
def utf8EncodeChar (c : Char) : List Nat :=
  let n := c.toNat
  if n < 0x80 then [n]
  else if n < 0x800 then [0xc0 + n / 64, 0x80 + n % 64]
  else if n < 0x10000 then [0xe0 + n / 4096, 0x80 + n / 64 % 64, 0x80 + n % 64]
  else [0xf0 + n / 262144, 0x80 + n / 4096 % 64, 0x80 + n / 64 % 64, 0x80 + n % 64]

/-- UTF-8 encoding of a string. -/
def utf8Encode (s : List Char) : List Nat := s.flatMap utf8EncodeChar

/-- Whether a byte is a UTF-8 continuation byte. -/
def isCont (b : Nat) : Bool := 0x80 ≤ b && b < 0xc0

/-- One step of strict UTF-8 decoding (`bytes.decode("utf-8")`): classify the
sequence led by `b`, returning the code point and the remaining bytes; rejects
stray or missing continuation bytes, overlong forms, surrogates and code
points above `0x10ffff`, as CPython does. -/
def utf8Step (b : Nat) (t : List Nat) : Option (Nat × List Nat) :=
  if b < 0x80 then some (b, t)
  else if b < 0xc2 then none
  else if b < 0xe0 then
    match t with
    | [] => none
    | b2 :: t2 =>
      if isCont b2 then some ((b - 0xc0) * 64 + (b2 - 0x80), t2) else none
  else if b < 0xf0 then
    match t with
    | [] => none
    | [_] => none
    | b2 :: b3 :: t3 =>
      if isCont b2 && isCont b3 then
        let cp := (b - 0xe0) * 4096 + (b2 - 0x80) * 64 + (b3 - 0x80)
        if 0x800 ≤ cp && ¬(0xd800 ≤ cp && cp ≤ 0xdfff) then some (cp, t3) else none
      else none
  else if b < 0xf5 then
    match t with
    | [] => none
    | [_] => none
    | [_, _] => none
    | b2 :: b3 :: b4 :: t4 =>
      if isCont b2 && isCont b3 && isCont b4 then
        let cp := (b - 0xf0) * 262144 + (b2 - 0x80) * 4096 + (b3 - 0x80) * 64 + (b4 - 0x80)
        if 0x10000 ≤ cp && cp ≤ 0x10ffff then some (cp, t4) else none
      else none
  else none

/-- Fuel-driven UTF-8 decoding loop; every step consumes at least one byte, so
fuel equal to the byte count always suffices. -/
def utf8DecodeF : Nat → List Nat → Option (List Char)
  | _, [] => some []
  | 0, _ :: _ => none
  | f + 1, b :: t =>
    match utf8Step b t with
    | some (cp, rest) => (utf8DecodeF f rest).map (Char.ofNat cp :: ·)
    | none => none

/-- Strict UTF-8 decoding of a byte string. -/
def utf8Decode (l : List Nat) : Option (List Char) := utf8DecodeF l.length l

/-- Python `str.isspace` set restricted to the code points reachable here
(ASCII whitespace, `0x1c`-`0x1f`, NEL, NBSP and the Unicode space class):
used by `str.strip()`. -/
def isPySpace (c : Char) : Bool :=
  let n := c.toNat
  (9 ≤ n && n ≤ 13) || (28 ≤ n && n ≤ 32) || n = 133 || n = 160 || n = 5760 ||
    (8192 ≤ n && n ≤ 8202) || n = 8232 || n = 8233 || n = 8239 || n = 8287 || n = 12288

/-- Python `str.strip()`. -/
def pyStrip (l : List Char) : List Char :=
  ((l.dropWhile isPySpace).reverse.dropWhile isPySpace).reverse

/-- First index at which `}}` occurs (`json_str.index("}}")`). -/
def idxPair : List Char → Option Nat
  | '}' :: '}' :: _ => some 0
  | _ :: t => (idxPair t).map (· + 1)
  | [] => none

/-- First index of `}` (`json_str.index("}")`). -/
def idxBrace : List Char → Option Nat
  | '}' :: _ => some 0
  | _ :: t => (idxBrace t).map (· + 1)
  | [] => none

/-- The `decode_k2_message` truncation: cut at the first `}}` if present, else
at the first `}`, else leave unchanged. -/
def truncK2 (l : List Char) : List Char :=
  match idxPair l with
  | some i => l.take (i + 2)
  | none =>
    match idxBrace l with
    | some j => l.take (j + 1)
    | none => l

/-- The XOR constant from the Android app (`K2Codec.XOR_CONSTANT`). -/
def xorConstant : Nat := 0x23

/-- The encoder's per-pair loop: take two hex digits, convert (`int(_, 16)`,
always succeeding on the generated hex string) and XOR with the mask. -/
def encTwo (mask : Nat) : List Char → List Nat
  | c1 :: c2 :: t => (((hexDigVal c1).getD 0 * 16 + (hexDigVal c2).getD 0) ^^^ mask) :: encTwo mask t
  | _ => []

/-- `K2Codec.encode_k2_message` on a dict, with the random key byte `k`
(`random.randint(0, 255)`) made an explicit parameter: serialize compactly,
hex the UTF-8 bytes, XOR every hex-decoded byte with `k ^ 0x23` and prepend
`k`. -/
def encode_k2_message (m : Json) (k : Nat) : List Nat :=
  let jsonStr := dumps m
  let hexString := (utf8Encode jsonStr).flatMap toHex2
  k :: encTwo (k ^^^ xorConstant) hexString

/-- `K2Codec.decode_k2_message`: strip the key byte, XOR with the mask, render
each byte as two hex digits, `bytes.fromhex`, decode UTF-8, truncate at
`}}`/`}` and parse JSON; any failure yields `none`. -/
def decode_k2_message (data : List Nat) : Option Json :=
  match data with
  | [] => none
  | [_] => none
  | k :: rest =>
    let mask := k ^^^ xorConstant
    let hexString := (rest.map (fun b => toHex2 (b ^^^ mask))).flatten
    match hexPairs hexString with
    | none => none
    | some decodedBytes =>
      match utf8Decode decodedBytes with
      | none => none
      | some jsonStr => jsonParse (truncK2 jsonStr)

/-- `K2Codec.is_k2_message`: `False` for inputs shorter than 2 bytes or
starting with `{` (0x7b); otherwise `True` exactly when the buffer fails
UTF-8 decoding or the decoded, stripped text does not start with `{`. -/
def is_k2_message : List Nat → Bool
  | [] => false
  | [_] => false
  | b :: rest =>
    if b = 0x7b then false
    else
      match utf8Decode (b :: rest) with
      | some text =>
        match pyStrip text with
        | '{' :: _ => false
        | _ => true
      | none => true

/-! ## Digit and hex lemmas -/

theorem digitChar_isDig {d : Nat} (h : d < 10) : isDig (digitChar d) = true := by
  interval_cases d <;> decide

theorem digitChar_toNat {d : Nat} (h : d < 10) : (digitChar d).toNat - 48 = d := by
  interval_cases d <;> decide

theorem digitChar_ne_zero {d : Nat} (h0 : d ≠ 0) (h : d < 10) : digitChar d ≠ '0' := by
  interval_cases d <;> simp_all <;> decide

theorem natDigs_ne_nil (n : Nat) : natDigs n ≠ [] := by
  rw [natDigs]
  split <;> simp

theorem natDigs_all_digits (n : Nat) : ∀ c ∈ natDigs n, isDig c = true := by
  induction n using Nat.strong_induction_on with
  | _ n ih =>
    rw [natDigs]
    split
    · simp_all [digitChar_isDig]
    · intro c hc
      simp only [List.mem_append, List.mem_singleton] at hc
      rcases hc with hc | hc
      · exact ih (n / 10) (Nat.div_lt_self (by omega) (by omega)) c hc
      · subst hc; exact digitChar_isDig (Nat.mod_lt _ (by omega))

theorem natDigs_head_ne_zero {n : Nat} (h : n ≠ 0) :
    ∀ c t, natDigs n = c :: t → c ≠ '0' := by
  induction n using Nat.strong_induction_on with
  | _ n ih =>
    rw [natDigs]
    split
    · rename_i h10
      intro c t hct
      simp only [List.cons.injEq] at hct
      rw [← hct.1]
      exact digitChar_ne_zero h h10
    · rename_i h10
      intro c t hct
      have hd : n / 10 ≠ 0 := by omega
      obtain ⟨c', t', hc'⟩ : ∃ c' t', natDigs (n / 10) = c' :: t' := by
        rcases hnd : natDigs (n / 10) with _ | ⟨c', t'⟩
        · exact absurd hnd (natDigs_ne_nil _)
        · exact ⟨c', t', rfl⟩
      rw [hc'] at hct
      simp only [List.cons_append, List.cons.injEq] at hct
      rw [← hct.1]
      exact ih (n / 10) (Nat.div_lt_self (by omega) (by omega)) hd c' t' hc'

theorem digitsGo_stop {acc : Nat} {rest : List Char} (h : headIsDig rest = false) :
    digitsGo acc rest = (acc, rest) := by
  cases rest with
  | nil => simp [digitsGo]
  | cons c t =>
    simp only [headIsDig] at h
    simp [digitsGo, h]

theorem digitsGo_natDigs (n : Nat) : ∀ acc rest,
    digitsGo acc (natDigs n ++ rest) = digitsGo (acc * 10 ^ (natDigs n).length + n) rest := by
  induction n using Nat.strong_induction_on with
  | _ n ih =>
    intro acc rest
    rw [natDigs]
    split
    · rename_i h10
      simp only [List.singleton_append, List.length_singleton, pow_one]
      rw [digitsGo]
      simp [digitChar_isDig h10, digitChar_toNat h10]
    · rename_i h10
      rw [List.append_assoc, List.singleton_append,
        ih (n / 10) (Nat.div_lt_self (by omega) (by omega))]
      rw [digitsGo]
      have hm : n % 10 < 10 := Nat.mod_lt _ (by omega)
      simp only [digitChar_isDig hm, if_true, digitChar_toNat hm,
        List.length_append, List.length_singleton]
      congr 1
      rw [pow_succ]
      ring_nf
      omega

theorem parseStringBody_append {s : List Char} (h : ∀ c ∈ s, c ≠ '"') (rest : List Char) :
    parseStringBody (s ++ '"' :: rest) = some (s, rest) := by
  induction s with
  | nil => simp [parseStringBody]
  | cons c t ihs =>
    have hcq : c ≠ '"' := h c (by simp)
    rw [List.cons_append, parseStringBody]
    · simp [ihs fun x hx => h x (by simp [hx])]
    · exact fun h' => absurd rfl (h' ▸ hcq)
  
theorem isDig_not_special {c : Char} (h : isDig c = true) :
    c ≠ '{' ∧ c ≠ '"' ∧ c ≠ 'n' ∧ c ≠ 't' ∧ c ≠ 'f' ∧ c ≠ '-' := by
  refine ⟨?_, ?_, ?_, ?_, ?_, ?_⟩ <;> rintro rfl <;> exact absurd h (by decide)

theorem jsize_pos (m : Json) : 1 ≤ jsize m := by
  cases m <;> simp [jsize]

theorem msize_pos (ms : Members) : 1 ≤ msize ms := by
  cases ms <;> simp [msize] <;> omega

theorem natDigs_head_ne_zero' {n : Nat} (h : n ≠ 0) {c : Char} {t : List Char}
    (hct : natDigs n = c :: t) : c ≠ '0' :=
  natDigs_head_ne_zero h c t hct

theorem parseValue_intChars {n : Int} {f : Nat} {rest : List Char} (h : headIsDig rest = false) :
    parseValue (f + 1) (intChars n ++ rest) = some (.num n, rest) := by
  by_cases hn : n < 0
  · -- negative: '-' followed by the digits of -n
    have hpos : (-n).toNat ≠ 0 := by omega
    obtain ⟨d, ds, hds⟩ : ∃ d ds, natDigs (-n).toNat = d :: ds := by
      rcases hnd : natDigs (-n).toNat with _ | ⟨d, ds⟩
      · exact absurd hnd (natDigs_ne_nil _)
      · exact ⟨d, ds, rfl⟩
    have hdig : isDig d = true := natDigs_all_digits _ d (hds ▸ List.mem_cons_self _ _)
    have hd0 : d ≠ '0' := natDigs_head_ne_zero' hpos hds
    have hrw : intChars n ++ rest = '-' :: (d :: (ds ++ rest)) := by
      simp [intChars, hn, hds]
    have hgo : digitsGo 0 (d :: (ds ++ rest)) = ((-n).toNat, rest) := by
      have := digitsGo_natDigs (-n).toNat 0 rest
      rw [hds] at this
      simpa [digitsGo_stop h] using this
    rw [hrw]
    simp only [parseValue, reduceIte, hdig, if_true, hd0, hgo]
    have h2 : -(((-n).toNat : Nat) : Int) = n := by omega
    rw [h2]
    simp
  · -- non-negative: the digits of n.toNat
    obtain ⟨d, ds, hds⟩ : ∃ d ds, natDigs n.toNat = d :: ds := by
      rcases hnd : natDigs n.toNat with _ | ⟨d, ds⟩
      · exact absurd hnd (natDigs_ne_nil _)
      · exact ⟨d, ds, rfl⟩
    have hdig : isDig d = true := natDigs_all_digits _ d (hds ▸ List.mem_cons_self _ _)
    obtain ⟨hne1, hne2, hne3, hne4, hne5, hne6⟩ := isDig_not_special hdig
    have hrw : intChars n ++ rest = d :: (ds ++ rest) := by
      simp [intChars, hn, hds]
    have hzchk : (decide (d = '0') && headIsDig (ds ++ rest)) = false := by
      by_cases hd0 : d = '0'
      · have hz : n.toNat = 0 := by
          by_contra hz
          exact natDigs_head_ne_zero' hz hds hd0
        have hsing : natDigs n.toNat = ['0'] := by rw [hz, natDigs]; simp [digitChar]
        rw [hds] at hsing
        simp only [List.cons.injEq] at hsing
        rw [hsing.2]
        simp [h]
      · simp [hd0]
    have hgo : digitsGo 0 (d :: (ds ++ rest)) = (n.toNat, rest) := by
      have := digitsGo_natDigs n.toNat 0 rest
      rw [hds] at this
      simpa [digitsGo_stop h] using this
    rw [hrw]
    simp only [parseValue, hne1, if_false, hne2, hne3, hne4, hne5, hne6, hdig, if_true,
      hzchk, Bool.false_eq_true, hgo]
    have h2 : ((n.toNat : Nat) : Int) = n := by omega
    rw [h2]

theorem safeChar_ne_quote {c : Char} (h : safeChar c = true) : c ≠ '"' := by
  intro hq
  subst hq
  exact absurd h (by decide)

theorem roundtrip_level : ∀ N : Nat,
    (∀ m : Json, jsize m ≤ N → wfJ m = true → ∀ fuel rest, jsize m ≤ fuel →
      headIsDig rest = false → parseValue fuel (dumps m ++ rest) = some (m, rest)) ∧
    (∀ k v t, msize (.cons k v t) ≤ N → wfM (.cons k v t) = true → ∀ fuel rest,
      msize (.cons k v t) ≤ fuel →
      parseMembers fuel (dumpsMembers (.cons k v t) ++ rest) = some (.cons k v t, rest)) := by
  intro N
  induction N with
  | zero =>
    constructor
    · intro m hm
      have := jsize_pos m
      omega
    · intro k v t hm
      have := msize_pos (.cons k v t)
      omega
  | succ N ih =>
    constructor
    · intro m hm hwf fuel rest hfuel hrest
      obtain ⟨f, rfl⟩ : ∃ f, fuel = f + 1 := ⟨fuel - 1, by have := jsize_pos m; omega⟩
      cases m with
      | null =>
        simp [dumps, chars, parseValue]
      | bool b =>
        cases b <;> simp [dumps, chars, parseValue]
      | num n =>
        show parseValue (f + 1) (intChars n ++ rest) = _
        exact parseValue_intChars hrest
      | str s =>
        have hs : ∀ c ∈ s, c ≠ '"' := by
          intro c hc
          have := hwf
          simp only [wfJ, List.all_eq_true] at this
          exact safeChar_ne_quote (this c hc)
        have hshape : dumps (.str s) ++ rest = '"' :: (s ++ '"' :: rest) := by
          simp [dumps]
        rw [hshape]
        simp [parseValue, parseStringBody_append hs]
      | obj ms =>
        cases ms with
        | nil =>
          simp [dumps, dumpsMembers, parseValue]
        | cons k v t =>
          have hmem : parseMembers f (dumpsMembers (.cons k v t) ++ rest) =
              some (.cons k v t, rest) := by
            refine ih.2 k v t ?_ ?_ f rest ?_
            · simp only [jsize] at hm; omega
            · simpa [wfJ] using hwf
            · simp only [jsize] at hfuel; omega
          obtain ⟨tl, htl⟩ : ∃ tl, dumpsMembers (.cons k v t) ++ rest = '"' :: tl := by
            cases t <;> simp [dumpsMembers]
          have hshape : dumps (.obj (.cons k v t)) ++ rest = '{' :: ('"' :: tl) := by
            rw [← htl]
            simp [dumps]
          rw [htl] at hmem
          rw [hshape]
          simp [parseValue, hmem]
    · intro k v t hm hwf fuel rest hfuel
      obtain ⟨f, rfl⟩ : ∃ f, fuel = f + 1 :=
        ⟨fuel - 1, by have := msize_pos (.cons k v t); omega⟩
      have hkq : ∀ c ∈ k, c ≠ '"' := by
        intro c hc
        have := hwf
        simp only [wfM, List.all_eq_true, Bool.and_eq_true] at this
        exact safeChar_ne_quote (this.1.1 c hc)
      have hwfv : wfJ v = true := by
        simp only [wfM, Bool.and_eq_true] at hwf
        exact hwf.1.2
      cases t with
      | nil =>
        have hshape : dumpsMembers (.cons k v .nil) ++ rest =
            '"' :: (k ++ '"' :: (':' :: (dumps v ++ ('}' :: rest)))) := by
          simp [dumpsMembers]
        have hval : parseValue f (dumps v ++ ('}' :: rest)) = some (v, '}' :: rest) := by
          refine ih.1 v ?_ hwfv f ('}' :: rest) ?_ (by simp [headIsDig, isDig])
          · simp only [msize] at hm
            omega
          · simp only [msize] at hfuel
            omega
        rw [hshape, parseMembers]
        rw [parseStringBody_append hkq]
        simp [hval]
      | cons k' v' t' =>
        have hshape : dumpsMembers (.cons k v (.cons k' v' t')) ++ rest =
            '"' :: (k ++ '"' :: (':' :: (dumps v ++
              (',' :: (dumpsMembers (.cons k' v' t') ++ rest))))) := by
          simp [dumpsMembers]
        have hval : parseValue f (dumps v ++ (',' :: (dumpsMembers (.cons k' v' t') ++ rest))) =
            some (v, ',' :: (dumpsMembers (.cons k' v' t') ++ rest)) := by
          refine ih.1 v ?_ hwfv f _ ?_ (by simp [headIsDig, isDig])
          · have := msize_pos (Members.cons k' v' t')
            simp only [msize] at hm
            omega
          · simp only [msize] at hfuel
            omega
        have hrec : parseMembers f (dumpsMembers (.cons k' v' t') ++ rest) =
            some (.cons k' v' t', rest) := by
          refine ih.2 k' v' t' ?_ ?_ f rest ?_
          · have := jsize_pos v
            simp only [msize] at hm ⊢
            omega
          · simp only [wfM, Bool.and_eq_true] at hwf ⊢
            exact hwf.2
          · have := jsize_pos v
            simp only [msize] at hfuel ⊢
            omega
        rw [hshape, parseMembers]
        rw [parseStringBody_append hkq]
        simp [hval, hrec]

theorem intChars_ne_nil (n : Int) : intChars n ≠ [] := by
  rw [intChars]
  split
  · simp
  · exact natDigs_ne_nil _

theorem dumps_size_level : ∀ N : Nat,
    (∀ m : Json, jsize m ≤ N → jsize m ≤ (dumps m).length) ∧
    (∀ k v t, msize (.cons k v t) ≤ N →
      msize (.cons k v t) ≤ (dumpsMembers (.cons k v t)).length) := by
  intro N
  induction N with
  | zero =>
    constructor
    · intro m hm; have := jsize_pos m; omega
    · intro k v t hm; have := msize_pos (.cons k v t); omega
  | succ N ih =>
    constructor
    · intro m hm
      cases m with
      | null => simp [dumps, jsize, chars]
      | bool b => cases b <;> simp [dumps, jsize, chars]
      | num n =>
        have := intChars_ne_nil n
        have : 1 ≤ (intChars n).length := by
          cases h : intChars n with
          | nil => exact absurd h this
          | cons c t => simp
        simpa [dumps, jsize] using this
      | str s => simp [dumps, jsize]
      | obj ms =>
        cases ms with
        | nil => simp [dumps, dumpsMembers, jsize, msize]
        | cons k v t =>
          have hmem := ih.2 k v t (by simp only [jsize] at hm; omega)
          simp only [dumps, jsize, List.length_cons] at hmem ⊢
          omega
    · intro k v t hm
      have hv := ih.1 v (by have := msize_pos t; simp only [msize] at hm; omega)
      cases t with
      | nil =>
        simp only [dumpsMembers, msize, List.length_append, List.length_cons,
          List.length_singleton, msize] at hv ⊢
        omega
      | cons k' v' t' =>
        have ht := ih.2 k' v' t' (by have := jsize_pos v; simp only [msize] at hm ⊢; omega)
        simp only [dumpsMembers, msize, List.length_append, List.length_cons,
          List.length_singleton] at hv ht ⊢
        omega

theorem jsize_le_dumps_length (m : Json) : jsize m ≤ (dumps m).length :=
  (dumps_size_level (jsize m)).1 m le_rfl

/-- `json.loads` recovers any well-formed value from its compact dump. -/
theorem jsonParse_dumps {m : Json} (h : wfJ m = true) : jsonParse (dumps m) = some m := by
  have hfuel : jsize m ≤ (dumps m).length + 1 := by
    have := jsize_le_dumps_length m
    omega
  have := (roundtrip_level (jsize m)).1 m le_rfl h ((dumps m).length + 1) [] hfuel rfl
  simp only [List.append_nil] at this
  simp [jsonParse, this]

/-! ## The byte pipeline: ASCII, UTF-8, hex and XOR lemmas -/

theorem isDig_lt128 {c : Char} (h : isDig c = true) : c.toNat < 128 := by
  simp only [isDig, Bool.and_eq_true, decide_eq_true_eq] at h
  omega

theorem safeChar_lt128 {c : Char} (h : safeChar c = true) : c.toNat < 128 := by
  simp only [safeChar, Bool.and_eq_true, decide_eq_true_eq] at h
  omega

theorem intChars_lt128 (n : Int) : ∀ c ∈ intChars n, c.toNat < 128 := by
  intro c hc
  by_cases hn : n < 0
  · rw [intChars, if_pos hn] at hc
    rcases List.mem_cons.mp hc with rfl | hc
    · decide
    · exact isDig_lt128 (natDigs_all_digits _ c hc)
  · rw [intChars, if_neg hn] at hc
    exact isDig_lt128 (natDigs_all_digits _ c hc)

/-- Boolean ASCII check on a character list. -/
def allAscii (l : List Char) : Bool := l.all (fun c => decide (c.toNat < 128))

theorem allAscii_of_safe {l : List Char} (h : l.all safeChar = true) : allAscii l = true := by
  simp only [allAscii, List.all_eq_true, decide_eq_true_eq] at h ⊢
  exact fun c hc => safeChar_lt128 (h c hc)

theorem allAscii_intChars (n : Int) : allAscii (intChars n) = true := by
  simp only [allAscii, List.all_eq_true, decide_eq_true_eq]
  exact intChars_lt128 n

theorem dumps_ascii_level : ∀ N : Nat,
    (∀ m : Json, jsize m ≤ N → wfJ m = true → allAscii (dumps m) = true) ∧
    (∀ k v t, msize (.cons k v t) ≤ N → wfM (.cons k v t) = true →
      allAscii (dumpsMembers (.cons k v t)) = true) := by
  intro N
  induction N with
  | zero =>
    constructor
    · intro m hm; have := jsize_pos m; omega
    · intro k v t hm; have := msize_pos (.cons k v t); omega
  | succ N ih =>
    constructor
    · intro m hm hwf
      cases m with
      | null => decide
      | bool b => cases b <;> decide
      | num n => exact allAscii_intChars n
      | str s =>
        have hs : s.all safeChar = true := by simpa [wfJ] using hwf
        have := allAscii_of_safe hs
        simp only [dumps, allAscii, List.all_cons, List.all_append] at this ⊢
        simp_all
      | obj ms =>
        cases ms with
        | nil => decide
        | cons k v t =>
          have hmem := ih.2 k v t (by simp only [jsize] at hm; omega)
            (by simpa [wfJ] using hwf)
          simp only [dumps, allAscii, List.all_cons] at hmem ⊢
          simp_all
    · intro k v t hm hwf
      have hwf' : (k.all safeChar && wfJ v && wfM t) = true := by simpa [wfM] using hwf
      simp only [Bool.and_eq_true] at hwf'
      have hk := allAscii_of_safe hwf'.1.1
      have hv : allAscii (dumps v) = true := by
        refine ih.1 v ?_ hwf'.1.2
        have := msize_pos t
        simp only [msize] at hm
        omega
      cases t with
      | nil =>
        simp only [dumpsMembers, allAscii, List.all_cons, List.all_append] at hk hv ⊢
        simp_all
      | cons k' v' t' =>
        have ht : allAscii (dumpsMembers (.cons k' v' t')) = true := by
          refine ih.2 k' v' t' ?_ ?_
          · have := jsize_pos v; simp only [msize] at hm ⊢; omega
          · simpa [wfM] using hwf'.2
        simp only [dumpsMembers, allAscii, List.all_cons, List.all_append] at hk hv ht ⊢
        simp_all

theorem dumps_ascii {m : Json} (h : wfJ m = true) : ∀ c ∈ dumps m, c.toNat < 128 := by
  have := (dumps_ascii_level (jsize m)).1 m le_rfl h
  simp only [allAscii, List.all_eq_true, decide_eq_true_eq] at this
  exact this

theorem char_toNat_lt (c : Char) : c.toNat < 1114112 := by
  rcases c.valid with h | ⟨h1, h2⟩
  · simp only [Char.toNat]
    omega
  · simp only [Char.toNat]
    omega

theorem utf8EncodeChar_lt256 (c : Char) : ∀ b ∈ utf8EncodeChar c, b < 256 := by
  have hv := char_toNat_lt c
  intro b hb
  simp only [utf8EncodeChar] at hb
  split at hb
  · simp only [List.mem_singleton] at hb; omega
  · split at hb
    · rcases List.mem_cons.mp hb with rfl | hb
      · omega
      · simp only [List.mem_singleton] at hb; omega
    · split at hb
      · rcases List.mem_cons.mp hb with rfl | hb
        · omega
        · rcases List.mem_cons.mp hb with rfl | hb
          · omega
          · simp only [List.mem_singleton] at hb; omega
      · rcases List.mem_cons.mp hb with rfl | hb
        · omega
        · rcases List.mem_cons.mp hb with rfl | hb
          · omega
          · rcases List.mem_cons.mp hb with rfl | hb
            · omega
            · simp only [List.mem_singleton] at hb; omega

theorem utf8Encode_lt256 (s : List Char) : ∀ b ∈ utf8Encode s, b < 256 := by
  intro b hb
  simp only [utf8Encode, List.mem_flatMap] at hb
  obtain ⟨c, _, hbc⟩ := hb
  exact utf8EncodeChar_lt256 c b hbc

theorem utf8Step_ascii {b : Nat} (hb : b < 128) (t : List Nat) :
    utf8Step b t = some (b, t) := by
  unfold utf8Step
  rw [if_pos (show b < 0x80 by omega)]

theorem utf8Decode_encode_ascii {s : List Char} (h : ∀ c ∈ s, c.toNat < 128) :
    utf8Decode (utf8Encode s) = some s := by
  suffices hF : utf8DecodeF (utf8Encode s).length (utf8Encode s) = some s by
    exact hF
  induction s with
  | nil => rfl
  | cons c t iht =>
    have hc : c.toNat < 128 := h c (List.mem_cons_self _ _)
    have henc : utf8EncodeChar c = [c.toNat] := by
      simp only [utf8EncodeChar]
      rw [if_pos (show c.toNat < 0x80 by omega)]
    have hrec := iht fun x hx => h x (List.mem_cons_of_mem _ hx)
    have hflat : utf8Encode (c :: t) = c.toNat :: utf8Encode t := by
      rw [utf8Encode, List.flatMap_cons, henc]
      rfl
    rw [hflat, List.length_cons, utf8DecodeF, utf8Step_ascii hc]
    simp only [hrec, Option.map_some', Char.ofNat_toNat]

theorem hexDigVal_hexDigChar {d : Nat} (h : d < 16) : hexDigVal (hexDigChar d) = some d := by
  interval_cases d <;> decide

theorem hexPairs_flatMap (bs : List Nat) (h : ∀ b ∈ bs, b < 256) :
    hexPairs (bs.flatMap toHex2) = some bs := by
  induction bs with
  | nil => rfl
  | cons b t ih =>
    have hb : b < 256 := h b (List.mem_cons_self _ _)
    have ht := ih fun x hx => h x (List.mem_cons_of_mem _ hx)
    have h16 : b / 16 % 16 = b / 16 := Nat.mod_eq_of_lt (by omega)
    simp only [List.flatMap_cons, toHex2, h16, List.cons_append, List.nil_append]
    rw [hexPairs]
    rw [hexDigVal_hexDigChar (by omega), hexDigVal_hexDigChar (Nat.mod_lt _ (by omega))]
    simp only [ht, Option.map_some']
    congr 2
    omega

theorem encTwo_flatMap (bs : List Nat) (mask : Nat) (h : ∀ b ∈ bs, b < 256) :
    encTwo mask (bs.flatMap toHex2) = bs.map (· ^^^ mask) := by
  induction bs with
  | nil => rfl
  | cons b t ih =>
    have hb : b < 256 := h b (List.mem_cons_self _ _)
    have ht := ih fun x hx => h x (List.mem_cons_of_mem _ hx)
    have h16 : b / 16 % 16 = b / 16 := Nat.mod_eq_of_lt (by omega)
    simp only [List.flatMap_cons, toHex2, h16, List.cons_append, List.nil_append,
      List.map_cons]
    rw [encTwo]
    rw [hexDigVal_hexDigChar (by omega), hexDigVal_hexDigChar (Nat.mod_lt _ (by omega))]
    simp only [Option.getD_some, ht]
    congr 2
    omega

theorem utf8EncodeChar_ne_nil (c : Char) : utf8EncodeChar c ≠ [] := by
  simp only [utf8EncodeChar]
  split
  · simp
  · split
    · simp
    · split
      · simp
      · simp

theorem dumps_ne_nil (m : Json) : dumps m ≠ [] := by
  cases m with
  | null => simp [dumps, chars]
  | bool b => cases b <;> simp [dumps, chars]
  | num n => simpa [dumps] using intChars_ne_nil n
  | str s => simp [dumps]
  | obj ms => cases ms <;> simp [dumps]

theorem utf8Encode_dumps_ne_nil (m : Json) : utf8Encode (dumps m) ≠ [] := by
  cases h : dumps m with
  | nil => exact absurd h (dumps_ne_nil m)
  | cons c t =>
    simp only [utf8Encode, List.flatMap_cons, ne_eq, List.append_eq_nil]
    intro hcontra
    exact utf8EncodeChar_ne_nil c hcontra.1

/-- The encoder in closed form: the key byte followed by the XOR-masked UTF-8
bytes of the compact serialization. -/
theorem encode_k2_closed (m : Json) (k : Nat) :
    encode_k2_message m k =
      k :: (utf8Encode (dumps m)).map (· ^^^ (k ^^^ xorConstant)) := by
  rw [encode_k2_message]
  congr 1
  exact encTwo_flatMap _ _ (utf8Encode_lt256 _)

/-- **C1 (amended form)**: when the compact serialization survives the
`}}`/`}` truncation unchanged, K2 decoding inverts K2 encoding for every
key byte. -/
theorem k2_roundtrip (m : Json) (k : Nat) (hk : k < 256) (hwf : wfJ m = true)
    (htr : truncK2 (dumps m) = dumps m) :
    decode_k2_message (encode_k2_message m k) = some m := by
  have hb256 : ∀ b ∈ utf8Encode (dumps m), b < 256 := utf8Encode_lt256 _
  obtain ⟨b0, brest, hbsc⟩ : ∃ b0 brest, utf8Encode (dumps m) = b0 :: brest := by
    rcases h : utf8Encode (dumps m) with _ | ⟨b0, brest⟩
    · exact absurd h (utf8Encode_dumps_ne_nil m)
    · exact ⟨b0, brest, rfl⟩
  rw [encode_k2_closed, hbsc, List.map_cons]
  rw [decode_k2_message]
  case x => simp
  have hxor : ((b0 ^^^ (k ^^^ xorConstant)) :: brest.map (· ^^^ (k ^^^ xorConstant))).map
      (fun b => toHex2 (b ^^^ (k ^^^ xorConstant))) = (b0 :: brest).map toHex2 := by
    rw [← List.map_cons (· ^^^ (k ^^^ xorConstant)) b0 brest, List.map_map]
    refine List.map_congr_left fun b hb => ?_
    simp only [Function.comp_apply, Nat.xor_cancel_right]
  rw [hxor, ← List.flatMap_def, ← hbsc]
  simp only [hexPairs_flatMap _ hb256, utf8Decode_encode_ascii (dumps_ascii hwf), htr]
  exact jsonParse_dumps hwf

/-- The object `\x7b"a":1\x7d`, used by the spec's detection test. -/
def exampleFlat : Json := .obj (.cons (chars "a") (.num 1) .nil)

/-- The object `\x7b"a":\x7b"b":1\x7d,"c":2\x7d`: its serialization has a `}`
before the end and no `}}`, so the decoder's truncation cuts it short. -/
def exampleNested : Json :=
  .obj (.cons (chars "a") (.obj (.cons (chars "b") (.num 1) .nil))
    (.cons (chars "c") (.num 2) .nil))

theorem dumps_exampleFlat :
    dumps exampleFlat = ['{', '"', 'a', '"', ':', '1', '}'] := by
  simp [exampleFlat, dumps, dumpsMembers, intChars, natDigs, digitChar, chars]

theorem dumps_exampleNested :
    dumps exampleNested =
      ['{', '"', 'a', '"', ':', '{', '"', 'b', '"', ':', '1', '}', ',',
       '"', 'c', '"', ':', '2', '}'] := by
  simp [exampleNested, dumps, dumpsMembers, intChars, natDigs, digitChar, chars]

theorem wfJ_exampleFlat : wfJ exampleFlat = true := by
  simp [exampleFlat, wfJ, wfM, safeChar, chars]

/-- **C1** (amended): for every value `m` of the modelled JSON fragment and
every key byte `k < 256`, if the `}}`/`}` truncation leaves the compact
serialization of `m` unchanged, then `decode_k2_message (encode_k2_message m k)
= m`.  (As stated over all `m` the claim fails: see the counterexample.) -/
theorem C1_decode_encode_roundtrip (m : Json) (k : Nat) (hk : k < 256)
    (hwf : wfJ m = true) (htr : truncK2 (dumps m) = dumps m) :
    decode_k2_message (encode_k2_message m k) = some m :=
  k2_roundtrip m k hk hwf htr

/-- Witness for C1: the round trip holds concretely for `\x7b"a":1\x7d` with key 0. -/
theorem C1_roundtrip_witness :
    decode_k2_message (encode_k2_message exampleFlat 0) = some exampleFlat :=
  C1_decode_encode_roundtrip exampleFlat 0 (by decide) wfJ_exampleFlat
    (by rw [dumps_exampleFlat]; decide)

/-- Counterexample to C1 as frozen: for `\x7b"a":\x7b"b":1\x7d,"c":2\x7d` (whose
serialization contains an early `}` and no `}}`) and key byte 0, decoding the
encoding yields `none`, not the original object. -/
theorem C1_roundtrip_counterexample :
    decode_k2_message (encode_k2_message exampleNested 0) ≠ some exampleNested := by
  rw [encode_k2_message, dumps_exampleNested]
  decide

set_option maxRecDepth 100000 in
/-- **C2** (amended): the classifier returns False (K1) whenever the buffer
decodes as UTF-8 and, stripped, starts with `{`; it returns True (K2) for
buffers failing UTF-8 decoding provided they are at least 2 bytes long and do
not start with byte `0x7b`; the UTF-8 bytes of the flat test object classify
as K1; and its K2 encoding classifies as K2 for every key byte except 123
(`0x7b`).  (As frozen — all invalid-UTF-8 buffers map to K2, and the encoding
maps to K2 for every key byte — the claim fails: see the counterexample.) -/
theorem C2_is_k2_message_spec :
    (∀ bs text, utf8Decode bs = some text → (∃ tl, pyStrip text = '{' :: tl) →
      is_k2_message bs = false) ∧
    (∀ b b2 rest, b ≠ 0x7b → utf8Decode (b :: b2 :: rest) = none →
      is_k2_message (b :: b2 :: rest) = true) ∧
    (is_k2_message (utf8Encode (dumps exampleFlat)) = false) ∧
    (∀ k, k < 256 → k ≠ 123 → is_k2_message (encode_k2_message exampleFlat k) = true) := by
  refine ⟨?_, ?_, ?_, ?_⟩
  · intro bs text hdec ⟨tl, htl⟩
    match bs with
    | [] =>
      have : text = [] := by
        simpa [utf8Decode, utf8DecodeF] using hdec.symm
      rw [this] at htl
      simp [pyStrip] at htl
    | [b] => rfl
    | b :: b2 :: rest =>
      rw [is_k2_message]
      case x => simp
      by_cases hb : b = 0x7b
      · simp [hb]
      · rw [if_neg hb, hdec]
        simp [htl]
  · intro b b2 rest hb hdec
    rw [is_k2_message]
    case x => simp
    rw [if_neg hb, hdec]
  · rw [dumps_exampleFlat]
    decide
  · simp only [encode_k2_message, dumps_exampleFlat]
    decide

/-- Witness for C2: the amended classifier facts instantiated concretely —
the stripped UTF-8 text of `["\x7b", "a"]` starts with `\x7b` so bytes
`[123, 97]` classify K1, and `[194, 194]` (2 bytes, head not `0x7b`, invalid
UTF-8) classifies K2. -/
theorem C2_is_k2_message_witness :
    is_k2_message [123, 97] = false ∧ is_k2_message [194, 194] = true :=
  ⟨C2_is_k2_message_spec.1 [123, 97] ['{', 'a'] (by decide) ⟨['a'], by decide⟩,
   C2_is_k2_message_spec.2.1 194 194 [] (by decide) (by decide)⟩

set_option maxRecDepth 100000 in
/-- Counterexample to C2 as frozen: `[0xff]` and `[0x7b, 0xff]` both fail
UTF-8 decoding yet classify as K1 (False) — the length-2 floor and the
first-byte-`0x7b` shortcut override the UTF-8 test — and the K2 encoding of
the flat test object under key byte 123 also classifies as K1. -/
theorem C2_is_k2_message_counterexample :
    utf8Decode [0xff] = none ∧ is_k2_message [0xff] = false ∧
    utf8Decode [0x7b, 0xff] = none ∧ is_k2_message [0x7b, 0xff] = false ∧
    is_k2_message (encode_k2_message exampleFlat 123) = false := by
  refine ⟨by decide, by decide, by decide, by decide, ?_⟩
  simp only [encode_k2_message, dumps_exampleFlat]
  decide

/-- The decoder in closed form on well-formed byte input: XOR-unmasking, hex
rendering and hex parsing cancel, leaving UTF-8 decoding, truncation and JSON
parsing. -/
theorem decode_k2_closed {k : Nat} {rest : List Nat} (hne : rest ≠ [])
    (hwf : ∀ b ∈ k :: rest, b < 256) :
    decode_k2_message (k :: rest) =
      match utf8Decode (rest.map (· ^^^ (k ^^^ xorConstant))) with
      | none => none
      | some text => jsonParse (truncK2 text) := by
  obtain ⟨r0, rs, rfl⟩ : ∃ r0 rs, rest = r0 :: rs := by
    rcases rest with _ | ⟨r0, rs⟩
    · exact absurd rfl hne
    · exact ⟨r0, rs, rfl⟩
  have hmask : k ^^^ xorConstant < 256 := by
    have hk : k < 256 := hwf k (List.mem_cons_self _ _)
    have := Nat.xor_lt_two_pow (n := 8) (by simpa using hk)
      (show xorConstant < 2 ^ 8 by decide)
    simpa using this
  have hb : ∀ b ∈ (r0 :: rs).map (· ^^^ (k ^^^ xorConstant)), b < 256 := by
    intro b hbm
    simp only [List.mem_map] at hbm
    obtain ⟨a, ha, rfl⟩ := hbm
    have ha256 : a < 256 := hwf a (List.mem_cons_of_mem _ ha)
    have := Nat.xor_lt_two_pow (n := 8) (by simpa using ha256) (by simpa using hmask)
    simpa using this
  rw [decode_k2_message]
  case x => simp
  have hflat : ((r0 :: rs).map (fun b => toHex2 (b ^^^ (k ^^^ xorConstant)))).flatten =
      ((r0 :: rs).map (· ^^^ (k ^^^ xorConstant))).flatMap toHex2 := by
    rw [List.flatMap_def, List.map_map]
    rfl
  rw [hflat, hexPairs_flatMap _ hb]

/-- **C6**: `decode_k2_message` is a total function of the byte input (it is
defined by structural recursion, so it never raises), and it returns `none`
on every listed failure: inputs of length at most 1; inputs whose unmasked
payload fails UTF-8 decoding; and inputs whose decoded text is not valid JSON
after the `}}`/`}` truncation.  (The "invalid hex" case of the claim is
unreachable: the decoder itself renders the hex string it then parses.) -/
theorem C6_decode_total_and_failure :
    (∀ data : List Nat, data.length ≤ 1 → decode_k2_message data = none) ∧
    (∀ k rest, rest ≠ [] → (∀ b ∈ k :: rest, b < 256) →
      utf8Decode (rest.map (· ^^^ (k ^^^ xorConstant))) = none →
      decode_k2_message (k :: rest) = none) ∧
    (∀ k rest text, rest ≠ [] → (∀ b ∈ k :: rest, b < 256) →
      utf8Decode (rest.map (· ^^^ (k ^^^ xorConstant))) = some text →
      jsonParse (truncK2 text) = none →
      decode_k2_message (k :: rest) = none) := by
  refine ⟨?_, ?_, ?_⟩
  · intro data hlen
    match data with
    | [] => rfl
    | [b] => rfl
    | b :: b2 :: t => simp at hlen
  · intro k rest hne hwf hdec
    rw [decode_k2_closed hne hwf, hdec]
  · intro k rest text hne hwf hdec hparse
    rw [decode_k2_closed hne hwf, hdec]
    simpa using hparse

/-- Witness for C6: the empty input, a 1-byte input, the 2-byte input
`[0, 255]` whose unmasked payload `[0xdc]` is invalid UTF-8, and the
encoding of `\x7b"a":\x7b"b":1\x7d,"c":2\x7d` under key 0 (valid UTF-8, but invalid
JSON after truncation) all decode to `none`. -/
theorem C6_decode_total_witness :
    decode_k2_message [] = none ∧ decode_k2_message [7] = none ∧
    decode_k2_message [0, 255] = none := by
  refine ⟨C6_decode_total_and_failure.1 [] (by decide),
    C6_decode_total_and_failure.1 [7] (by decide),
    C6_decode_total_and_failure.2.1 0 [255] (by decide) (by decide) (by decide)⟩

/-! ## Device registry and message dispatch (`device.py`, `hub.py`) -/

/-- `DEVICE_STATE_UNKNOWN` from `const.py`. -/
def DEVICE_STATE_UNKNOWN : List Char := chars "unknown"

/-- `DEVICE_STATE_NORMAL` from `const.py`. -/
def DEVICE_STATE_NORMAL : List Char := chars "normal"

/-- `DEVICE_STATE_ALARM` from `const.py`. -/
def DEVICE_STATE_ALARM : List Char := chars "alarm"

/-- `DEVICE_STATE_OPEN` from `const.py`. -/
def DEVICE_STATE_OPEN : List Char := chars "open"

/-- `DEVICE_STATE_CLOSED` from `const.py`. -/
def DEVICE_STATE_CLOSED : List Char := chars "closed"

/-- `ElroDeviceTypes.DOOR_WINDOW_SENSOR` from `const.py`. -/
def DOOR_WINDOW_SENSOR : List Char := chars "0101"

/-- `ElroDevice.__init__` fields: identifier, optional name, optional device
type (the raw JSON value the K1 handler stores, a hex string for K2), state
string, battery level (`-1` = unknown), and last-seen time (`None` before any
message). -/
structure ElroDevice where
  id : Int
  name : Option (List Char) := none
  device_type : Option Json := none
  state : List Char := DEVICE_STATE_UNKNOWN
  battery_level : Int := -1
  last_seen : Option Nat := none
deriving DecidableEq

/-- A fresh `ElroDevice(device_id)` with the constructor defaults. -/
def mkDev (k : Int) : ElroDevice := { id := k }

/-- The hub's `_devices` dict, keyed by device id in insertion order. -/
abbrev Reg := List (Int × ElroDevice)

/-- Dictionary lookup `self._devices.get(k)`. -/
def rlookup (k : Int) : Reg → Option ElroDevice
  | [] => none
  | (k', d) :: t => if k' = k then some d else rlookup k t

/-- Dictionary update `self._devices[k] = d` for a key already present. -/
def rset (k : Int) (d : ElroDevice) : Reg → Reg
  | [] => []
  | (k', d') :: t => if k' = k then (k', d) :: rset k d t else (k', d') :: rset k d t

/-- `ElroConnectsHub._get_or_create_device`: return the existing record, or
insert a fresh one with the constructor defaults. -/
def _get_or_create_device (k : Int) (r : Reg) : Reg × ElroDevice :=
  match rlookup k r with
  | some d => (r, d)
  | none => (r ++ [(k, mkDev k)], mkDev k)

/-- Dictionary `get` on object members: the last duplicate wins, as in
`json.loads`. -/
def mget (key : List Char) : Members → Option Json
  | .nil => none
  | .cons k v t =>
    match mget key t with
    | some r => some r
    | none => if k = key then some v else none

/-- `msg.get(key, "")` for the string payload fields (None and missing map to
the empty string; non-string payloads are outside the modelled fragment). -/
def getStrD (key : List Char) (ms : Members) : List Char :=
  match mget key ms with
  | some (.str s) => s
  | _ => []

/-- `msg.get(k1, "") or msg.get(k2, "")`: Python `or` falls through on any
falsy value (missing key, `None`, or the empty string). -/
def fieldOr (ms : Members) (k1 k2 : List Char) : List Char :=
  let v1 := getStrD k1 ms
  if v1 ≠ [] then v1 else getStrD k2 ms

/-- `ElroConnectsHub._hex_to_string`: exactly 32 hex chars decode to 16 bytes;
zero bytes are dropped, the result is ASCII-decoded and `@`/`$` stripped;
anything else yields the empty string. -/
def _hex_to_string (hexInput : List Char) : List Char :=
  if hexInput.length ≠ 32 then []
  else
    match hexPairs hexInput with
    | none => []
    | some bs => (((bs.filter (· ≠ 0)).map Char.ofNat).filter
        (fun c => (c != '@') && (c != '$')))

/-- The door/alarm state mapping with `"AA"` alone as the closed/normal code
(K1 cmdId 19 and the K2 split layout). -/
def stateFromCode (dt : Option Json) (code : List Char) : List Char :=
  if dt = some (.str DOOR_WINDOW_SENSOR) then
    (if code = chars "AA" then DEVICE_STATE_CLOSED else DEVICE_STATE_OPEN)
  else if code = chars "BB" then DEVICE_STATE_ALARM
  else if code = chars "AA" then DEVICE_STATE_NORMAL
  else DEVICE_STATE_UNKNOWN

/-- The state mapping of the K2 CMD 55 combined layout: both `"AA"` and
`"00"` count as the closed/normal code. -/
def stateFromCode55 (dt : Option Json) (code : List Char) : List Char :=
  if dt = some (.str DOOR_WINDOW_SENSOR) then
    (if code = chars "AA" ∨ code = chars "00" then DEVICE_STATE_CLOSED
     else DEVICE_STATE_OPEN)
  else if code = chars "BB" then DEVICE_STATE_ALARM
  else if code = chars "AA" ∨ code = chars "00" then DEVICE_STATE_NORMAL
  else DEVICE_STATE_UNKNOWN

/-- `ElroConnectsHub._async_handle_device_status_update` (K1 cmdId 19). -/
def handleDeviceStatusUpdate (data : Members) (now : Nat) (r : Reg) : Reg :=
  if mget (chars "device_name") data = some (.str (chars "STATUES")) then r
  else
    match mget (chars "device_ID") data with
    | some (.num devId) =>
      let rd := _get_or_create_device devId r
      let dev1 := { rd.2 with device_type := mget (chars "device_name") data }
      let ds := getStrD (chars "device_status") data
      let dev2 :=
        if 4 ≤ ds.length then
          match hexNat (pySlice 2 4 ds) with
          | some b => { dev1 with battery_level := (b : Int) }
          | none => dev1
        else dev1
      let dev3 :=
        if 6 ≤ ds.length then
          let code := if 6 < ds.length then (ds.drop 4).take (ds.length - 6) else ds.drop 4
          { dev2 with state := stateFromCode dev2.device_type code }
        else dev2
      rset devId { dev3 with last_seen := some now } rd.1
    | _ => r

/-- `ElroConnectsHub._async_handle_device_alarm_trigger` (K1 cmdId 25). -/
def handleDeviceAlarmTrigger (data : Members) (now : Nat) (r : Reg) : Reg :=
  let ac := getStrD (chars "answer_content") data
  if 10 ≤ ac.length then
    match hexNat (pySlice 6 10 ac) with
    | some devId =>
      let rd := _get_or_create_device devId r
      rset devId { rd.2 with state := DEVICE_STATE_ALARM, last_seen := some now } rd.1
    | none => r
  else r

/-- `ElroConnectsHub._async_handle_device_name_reply` (K1 cmdId 17). -/
def handleDeviceNameReply (data : Members) (now : Nat) (r : Reg) : Reg :=
  let ac := getStrD (chars "answer_content") data
  if ac = chars "NAME_OVER" ∨ ac.length < 36 then r
  else
    match hexNat (pySlice 0 4 ac) with
    | some devId =>
      let name := _hex_to_string (pySlice 4 36 ac)
      if name ≠ [] then
        let rd := _get_or_create_device devId r
        rset devId { rd.2 with name := some name, last_seen := some now } rd.1
      else r
    | none => r

/-- `ElroConnectsHub._async_handle_k2_device_name` (K2 CMD_CODE 17). -/
def handleK2DeviceName (msg : Members) (now : Nat) (r : Reg) : Reg :=
  let s1 := fieldOr msg (chars "rev_str1") (chars "data_str1")
  let s2 := fieldOr msg (chars "rev_str2") (chars "data_str2")
  if s1 = [] ∨ s2 = [] then r
  else if 4 ≤ s1.length then
    match hexNat (pySlice 0 4 s1) with
    | some devId =>
      if 32 ≤ s2.length then
        let name := _hex_to_string (pySlice 0 32 s2)
        if name ≠ [] then
          let rd := _get_or_create_device devId r
          rset devId { rd.2 with name := some name, last_seen := some now } rd.1
        else r
      else r
    | none => r
  else r

/-- `ElroConnectsHub._async_handle_k2_device_status` (K2 CMD_CODE 19/55):
the combined CMD 55 layout, the split layout, and the field1-only liveness
fallback; a `ValueError` in a hex parse aborts the remaining mutations but
keeps those already applied. -/
def handleK2DeviceStatus (msg : Members) (now : Nat) (r : Reg) : Reg :=
  let cmdCode := mget (chars "CMD_CODE") msg
  let s1 := fieldOr msg (chars "rev_str1") (chars "data_str1")
  let s2 := fieldOr msg (chars "rev_str2") (chars "data_str2")
  if s1 = [] then r
  else if cmdCode = some (.num 55) ∧ s2 = [] ∧ 14 ≤ s1.length then
    match hexNat (s1.take 2) with
    | some devId =>
      let rd := _get_or_create_device devId r
      let dev1 := { rd.2 with device_type := some (.str (pySlice 6 10 s1)) }
      match hexNat (pySlice 10 12 s1) with
      | some b =>
        let dev2 := { dev1 with battery_level := (b : Int) }
        let dev3 := { dev2 with state := stateFromCode55 dev2.device_type (pySlice 12 14 s1) }
        rset devId { dev3 with last_seen := some now } rd.1
      | none => rset devId dev1 rd.1
    | none => r
  else if s2 ≠ [] ∧ 4 ≤ s1.length then
    match hexNat (s1.take 4) with
    | some devId =>
      let rd := _get_or_create_device devId r
      let dev1 :=
        if 4 ≤ s2.length then { rd.2 with device_type := some (.str (s2.take 4)) } else rd.2
      if 6 ≤ s2.length then
        match hexNat (pySlice 4 6 s2) with
        | some b =>
          let dev2 := { dev1 with battery_level := (b : Int) }
          let dev3 :=
            if 8 ≤ s2.length then
              { dev2 with state := stateFromCode dev2.device_type (pySlice 6 8 s2) }
            else dev2
          rset devId { dev3 with last_seen := some now } rd.1
        | none => rset devId dev1 rd.1
      else rset devId { dev1 with last_seen := some now } rd.1
    | none => r
  else if s2 = [] ∧ 4 ≤ s1.length then
    match hexNat (s1.take 4) with
    | some devId =>
      let rd := _get_or_create_device devId r
      rset devId { rd.2 with last_seen := some now } rd.1
    | none => r
  else r

/-- `ElroConnectsHub._async_handle_message`: route a decoded envelope by K1
`cmdId` or K2 `CMD_CODE` and update the registry. -/
def _async_handle_message (msg : Json) (now : Nat) (r : Reg) : Reg :=
  match msg with
  | .obj mm =>
    match mget (chars "params") mm with
    | some (.obj pm) =>
      (match mget (chars "data") pm with
       | some (.obj dataM) =>
         (match mget (chars "cmdId") dataM with
          | some (.num 19) => handleDeviceStatusUpdate dataM now r
          | some (.num 25) => handleDeviceAlarmTrigger dataM now r
          | some (.num 17) => handleDeviceNameReply dataM now r
          | _ => r)
       | _ => k2Route mm now r)
    | _ => k2Route mm now r
  | _ => r
where
  /-- The K2 arm of `_async_handle_message`. -/
  k2Route (mm : Members) (now : Nat) (r : Reg) : Reg :=
    match mget (chars "action") mm, mget (chars "msg") mm with
    | some act, some (.obj inner) =>
      if act = .str (chars "NODE_SEND") ∨ act = .str (chars "APP_SEND") then
        match mget (chars "CMD_CODE") inner with
        | some (.num 17) => handleK2DeviceName inner now r
        | some (.num 19) => handleK2DeviceStatus inner now r
        | some (.num 55) => handleK2DeviceStatus inner now r
        | _ => r
      else r
    | _, _ => r

/-! ## Registry lemmas -/

/-- Key coherence: every record in the map carries its own key as `id`. -/
def RegInv (r : Reg) : Prop := ∀ p ∈ r, p.2.id = p.1

theorem rlookup_rset_self {k : Int} (d : ElroDevice) {r : Reg}
    (h : (rlookup k r).isSome) : rlookup k (rset k d r) = some d := by
  induction r with
  | nil => simp [rlookup] at h
  | cons p t ih =>
    obtain ⟨k', d'⟩ := p
    by_cases hk : k' = k
    · subst hk
      simp [rset, rlookup]
    · rw [rlookup, if_neg hk] at h
      rw [rset, if_neg hk, rlookup, if_neg hk]
      exact ih h

theorem rlookup_rset_ne {k k' : Int} (hne : k' ≠ k) (d : ElroDevice) (r : Reg) :
    rlookup k' (rset k d r) = rlookup k' r := by
  induction r with
  | nil => rfl
  | cons p t ih =>
    obtain ⟨k0, d0⟩ := p
    by_cases hk : k0 = k
    · subst hk
      rw [rset, if_pos rfl, rlookup, rlookup, if_neg (fun h => hne h.symm),
        if_neg (fun h => hne h.symm)]
      exact ih
    · rw [rset, if_neg hk, rlookup, rlookup]
      by_cases hk' : k0 = k'
      · simp [hk']
      · rw [if_neg hk', if_neg hk']
        exact ih

theorem rlookup_append_left {k : Int} {r : Reg} (s : Reg)
    (h : rlookup k r = none) : rlookup k (r ++ s) = rlookup k s := by
  induction r with
  | nil => rfl
  | cons p t ih =>
    obtain ⟨k0, d0⟩ := p
    by_cases hk : k0 = k
    · rw [rlookup, if_pos hk] at h
      exact absurd h (by simp)
    · rw [rlookup, if_neg hk] at h
      rw [List.cons_append, rlookup, if_neg hk]
      exact ih h

theorem rlookup_getOrCreate (k : Int) (r : Reg) :
    rlookup k ((_get_or_create_device k r).1) = some ((_get_or_create_device k r).2) := by
  rw [_get_or_create_device]
  cases h : rlookup k r with
  | some d => simpa using h
  | none =>
    simp only
    rw [rlookup_append_left _ h, rlookup, if_pos rfl]

theorem rlookup_getOrCreate_isSome (k : Int) (r : Reg) :
    (rlookup k ((_get_or_create_device k r).1)).isSome := by
  rw [rlookup_getOrCreate]
  rfl

theorem rlookup_mem {k : Int} {d : ElroDevice} :
    ∀ {r : Reg}, rlookup k r = some d → (k, d) ∈ r := by
  intro r h
  induction r with
  | nil => simp [rlookup] at h
  | cons p t ih =>
    obtain ⟨k0, d0⟩ := p
    by_cases hk : k0 = k
    · subst hk
      rw [rlookup, if_pos rfl] at h
      obtain rfl : d0 = d := by simpa using h
      exact List.mem_cons_self _ _
    · rw [rlookup, if_neg hk] at h
      exact List.mem_cons_of_mem _ (ih h)

theorem rlookup_id {k : Int} {d : ElroDevice} {r : Reg} (hinv : RegInv r)
    (h : rlookup k r = some d) : d.id = k :=
  hinv (k, d) (rlookup_mem h)

theorem getOrCreate_id {k : Int} {r : Reg} (hinv : RegInv r) :
    ((_get_or_create_device k r).2).id = k := by
  rw [_get_or_create_device]
  cases h : rlookup k r with
  | some d => simpa using rlookup_id hinv h
  | none => rfl

/-- **C3**: a K2 CMD_CODE 55 message with empty field2 and a field1 of at
least 14 hex chars yields a registry device keyed by `hex[0:2]` whose type is
`hex[6:10]`, battery `hex[10:12]`, and state derived from code `hex[12:14]`
with both `"AA"` and `"00"` accepted as the closed/normal code. -/
theorem C3_k2_cmd55_parsing (msg : Members) (r : Reg) (now : Nat) (s1 : List Char)
    (i b : Nat)
    (hcmd : mget (chars "CMD_CODE") msg = some (.num 55))
    (hf1 : fieldOr msg (chars "rev_str1") (chars "data_str1") = s1)
    (hf2 : fieldOr msg (chars "rev_str2") (chars "data_str2") = [])
    (hlen : 14 ≤ s1.length)
    (hid : hexNat (s1.take 2) = some i)
    (hbat : hexNat (pySlice 10 12 s1) = some b) :
    ∃ d, rlookup (i : Int) (handleK2DeviceStatus msg now r) = some d ∧
      d.device_type = some (.str (pySlice 6 10 s1)) ∧
      d.battery_level = (b : Int) ∧
      d.state = stateFromCode55 (some (.str (pySlice 6 10 s1))) (pySlice 12 14 s1) ∧
      d.last_seen = some now := by
  have hne : ¬(s1 = []) := by
    intro h
    rw [h] at hlen
    simp at hlen
  rw [handleK2DeviceStatus, hf1, hf2, hcmd, if_neg hne,
    if_pos (⟨rfl, rfl, hlen⟩ : some (Json.num 55) = some (.num 55) ∧ ([] : List Char) = [] ∧ 14 ≤ s1.length)]
  rw [hid, hbat]
  exact ⟨_, rlookup_rset_self _ (rlookup_getOrCreate_isSome _ _), rfl, rfl, rfl, rfl⟩

/-- The CMD 55 test vector from the spec: field1 `"0100034064AA00"`, no
field2. -/
def msgC3 : Members :=
  .cons (chars "CMD_CODE") (.num 55)
    (.cons (chars "rev_str1") (.str (chars "0100034064AA00")) .nil)

/-- Witness for C3: the spec's test vector yields device 1 with type
`"4064"`, battery 170 and state Normal. -/
theorem C3_k2_cmd55_witness :
    ∃ d, rlookup 1 (handleK2DeviceStatus msgC3 0 []) = some d ∧
      d.device_type = some (.str (chars "4064")) ∧ d.battery_level = 170 ∧
      d.state = DEVICE_STATE_NORMAL ∧ d.last_seen = some 0 := by
  obtain ⟨d, h1, h2, h3, h4, h5⟩ :=
    C3_k2_cmd55_parsing msgC3 [] 0 (chars "0100034064AA00") 1 170 rfl rfl rfl
      (by decide) rfl rfl
  exact ⟨d, h1, by rw [h2]; rfl, by rw [h3]; rfl, by rw [h4]; rfl, h5⟩

theorem pySlice_length {ac : List Char} (h : 36 ≤ ac.length) :
    (pySlice 4 36 ac).length = 32 := by
  simp only [pySlice, List.length_take, List.length_drop]
  omega

/-- **C4** (amended): a K1 cmdId 17 name reply whose `answer_content` is at
least 36 chars and not `"NAME_OVER"`, whose chars [0:4] parse as hex and
whose chars [4:36] are valid hex, yields — provided the decoded name (zero
bytes dropped, ASCII-decoded, `@`/`$` stripped) is nonempty — a registry
device keyed by `hex[0:4]` carrying exactly that name.  (As frozen the claim
fails when the decoded name is empty: such replies are ignored; see the
counterexample.) -/
theorem C4_name_reply (data : Members) (r : Reg) (now : Nat) (ac : List Char)
    (i : Nat) (bs : List Nat)
    (hac : getStrD (chars "answer_content") data = ac)
    (hnov : ac ≠ chars "NAME_OVER")
    (hlen : 36 ≤ ac.length)
    (hid : hexNat (pySlice 0 4 ac) = some i)
    (hhex : hexPairs (pySlice 4 36 ac) = some bs)
    (hname : ((bs.filter (· ≠ 0)).map Char.ofNat).filter
        (fun c => (c != '@') && (c != '$')) ≠ []) :
    ∃ d, rlookup (i : Int) (handleDeviceNameReply data now r) = some d ∧
      d.name = some (((bs.filter (· ≠ 0)).map Char.ofNat).filter
        (fun c => (c != '@') && (c != '$'))) ∧
      d.last_seen = some now := by
  have hcond : ¬(ac = chars "NAME_OVER" ∨ ac.length < 36) := by
    rintro (h | h)
    · exact hnov h
    · omega
  have hhs : _hex_to_string (pySlice 4 36 ac) =
      ((bs.filter (· ≠ 0)).map Char.ofNat).filter (fun c => (c != '@') && (c != '$')) := by
    rw [_hex_to_string, if_neg (by rw [pySlice_length hlen]; simp), hhex]
  rw [handleDeviceNameReply, hac, if_neg hcond, hid]
  simp only [hhs]
  rw [if_pos hname]
  exact ⟨_, rlookup_rset_self _ (rlookup_getOrCreate_isSome _ _), rfl, rfl⟩

/-- Hex encoding of an ASCII string (two lowercase hex digits per char). -/
def asciiHex (s : List Char) : List Char := (s.map Char.toNat).flatMap toHex2

/-- The spec's name-reply test vector: device id `0001` followed by the hex
of `"Kitchen"` padded with `'@'`. -/
def msgC4 : Members :=
  .cons (chars "answer_content")
    (.str (chars "0001" ++ asciiHex (chars "Kitchen" ++ List.replicate 24 '@'))) .nil

/-- Witness for C4: the `'@'`-padded `"Kitchen"` reply names device 1
`"Kitchen"`. -/
theorem C4_name_reply_witness :
    ∃ d, rlookup 1 (handleDeviceNameReply msgC4 0 []) = some d ∧
      d.name = some (chars "Kitchen") ∧ d.last_seen = some 0 := by
  obtain ⟨d, h1, h2, h3⟩ :=
    C4_name_reply msgC4 [] 0
      (chars "0001" ++ asciiHex (chars "Kitchen" ++ List.replicate 24 '@')) 1
      ((chars "Kitchen" ++ List.replicate 9 '@').map Char.toNat)
      rfl (by decide) (by decide) rfl rfl (by decide)
  exact ⟨d, h1, by rw [h2]; rfl, h3⟩

/-- A name reply whose 32 hex chars decode to 16 `'@'` bytes: the stripped
name is empty. -/
def msgC4empty : Members :=
  .cons (chars "answer_content")
    (.str (chars "0001" ++ asciiHex (List.replicate 16 '@'))) .nil

/-- Counterexample to C4 as frozen: an all-`'@'` name payload satisfies every
stated premise (length 36, not `"NAME_OVER"`), yet the handler ignores it —
the registry stays empty instead of holding device 1 with the (empty)
decoded name. -/
theorem C4_name_reply_counterexample :
    (chars "0001" ++ asciiHex (List.replicate 16 '@')).length = 36 ∧
    (chars "0001" ++ asciiHex (List.replicate 16 '@')) ≠ chars "NAME_OVER" ∧
    handleDeviceNameReply msgC4empty 0 [] = [] ∧
    rlookup 1 (handleDeviceNameReply msgC4empty 0 []) = none := by
  refine ⟨by decide, by decide, by rfl, by rfl⟩

theorem rlookup_append_some {k : Int} {r : Reg} {d : ElroDevice} (s : Reg)
    (h : rlookup k r = some d) : rlookup k (r ++ s) = some d := by
  induction r with
  | nil => simp [rlookup] at h
  | cons p t ih =>
    obtain ⟨k0, d0⟩ := p
    by_cases hk : k0 = k
    · rw [rlookup, if_pos hk] at h
      rw [List.cons_append, rlookup, if_pos hk]
      exact h
    · rw [rlookup, if_neg hk] at h
      rw [List.cons_append, rlookup, if_neg hk]
      exact ih h

theorem inv_rset {k : Int} {d : ElroDevice} {r : Reg} (hinv : RegInv r)
    (hd : d.id = k) : RegInv (rset k d r) := by
  induction r with
  | nil => intro p hp; simp [rset] at hp
  | cons p t ih =>
    obtain ⟨k0, d0⟩ := p
    have hinvt : RegInv t := fun q hq => hinv q (List.mem_cons_of_mem _ hq)
    intro q hq
    rw [rset] at hq
    by_cases hk : k0 = k
    · rw [if_pos hk] at hq
      rcases List.mem_cons.mp hq with rfl | hq
      · simpa [hk] using hd
      · exact ih hinvt q hq
    · rw [if_neg hk] at hq
      rcases List.mem_cons.mp hq with rfl | hq
      · exact hinv _ (List.mem_cons_self _ _)
      · exact ih hinvt q hq

theorem inv_getOrCreate {k : Int} {r : Reg} (hinv : RegInv r) :
    RegInv ((_get_or_create_device k r).1) := by
  rw [_get_or_create_device]
  cases h : rlookup k r with
  | some d => exact hinv
  | none =>
    intro p hp
    rcases List.mem_append.mp hp with hp | hp
    · exact hinv p hp
    · obtain rfl : p = (k, mkDev k) := by simpa using hp
      rfl

theorem dom_rset {j k : Int} {r : Reg} (d : ElroDevice)
    (h : (rlookup j r).isSome) : (rlookup j (rset k d r)).isSome := by
  by_cases hk : j = k
  · subst hk
    rw [rlookup_rset_self d h]
    rfl
  · rw [rlookup_rset_ne hk]
    exact h

theorem dom_getOrCreate {j k : Int} {r : Reg}
    (h : (rlookup j r).isSome) : (rlookup j ((_get_or_create_device k r).1)).isSome := by
  rw [_get_or_create_device]
  cases hk : rlookup k r with
  | some d => exact h
  | none =>
    obtain ⟨d, hd⟩ := Option.isSome_iff_exists.mp h
    simpa [rlookup_append_some _ hd] using rfl

/-- One registry write step of a handler: get-or-create a key and store a
record derived from the fetched one without changing its `id`. -/
theorem inv_dom_step {k : Int} {r : Reg} {d : ElroDevice}
    (hd : d.id = ((_get_or_create_device k r).2).id) (hinv : RegInv r) :
    RegInv (rset k d ((_get_or_create_device k r).1)) ∧
    ∀ j, (rlookup j r).isSome →
      (rlookup j (rset k d ((_get_or_create_device k r).1))).isSome := by
  have hid : d.id = k := by rw [hd]; exact getOrCreate_id hinv
  exact ⟨inv_rset (inv_getOrCreate hinv) hid,
    fun j hj => dom_rset _ (dom_getOrCreate hj)⟩

theorem statusUpdate_inv (data : Members) (now : Nat) (r : Reg) (hinv : RegInv r) :
    RegInv (handleDeviceStatusUpdate data now r) ∧
    ∀ j, (rlookup j r).isSome →
      (rlookup j (handleDeviceStatusUpdate data now r)).isSome := by
  simp only [handleDeviceStatusUpdate]
  repeat' split
  all_goals first
    | exact ⟨hinv, fun j h => h⟩
    | exact inv_dom_step rfl hinv

theorem alarmTrigger_inv (data : Members) (now : Nat) (r : Reg) (hinv : RegInv r) :
    RegInv (handleDeviceAlarmTrigger data now r) ∧
    ∀ j, (rlookup j r).isSome →
      (rlookup j (handleDeviceAlarmTrigger data now r)).isSome := by
  simp only [handleDeviceAlarmTrigger]
  repeat' split
  all_goals first
    | exact ⟨hinv, fun j h => h⟩
    | exact inv_dom_step rfl hinv

theorem nameReply_inv (data : Members) (now : Nat) (r : Reg) (hinv : RegInv r) :
    RegInv (handleDeviceNameReply data now r) ∧
    ∀ j, (rlookup j r).isSome →
      (rlookup j (handleDeviceNameReply data now r)).isSome := by
  simp only [handleDeviceNameReply]
  repeat' split
  all_goals first
    | exact ⟨hinv, fun j h => h⟩
    | exact inv_dom_step rfl hinv

theorem k2Name_inv (msg : Members) (now : Nat) (r : Reg) (hinv : RegInv r) :
    RegInv (handleK2DeviceName msg now r) ∧
    ∀ j, (rlookup j r).isSome →
      (rlookup j (handleK2DeviceName msg now r)).isSome := by
  simp only [handleK2DeviceName]
  repeat' split
  all_goals first
    | exact ⟨hinv, fun j h => h⟩
    | exact inv_dom_step rfl hinv

theorem k2Status_inv (msg : Members) (now : Nat) (r : Reg) (hinv : RegInv r) :
    RegInv (handleK2DeviceStatus msg now r) ∧
    ∀ j, (rlookup j r).isSome →
      (rlookup j (handleK2DeviceStatus msg now r)).isSome := by
  simp only [handleK2DeviceStatus]
  repeat' split
  all_goals first
    | exact ⟨hinv, fun j h => h⟩
    | exact inv_dom_step rfl hinv

theorem handleMessage_inv (msg : Json) (now : Nat) (r : Reg) (hinv : RegInv r) :
    RegInv (_async_handle_message msg now r) ∧
    ∀ j, (rlookup j r).isSome →
      (rlookup j (_async_handle_message msg now r)).isSome := by
  simp only [_async_handle_message, _async_handle_message.k2Route]
  repeat' split
  all_goals first
    | exact ⟨hinv, fun j h => h⟩
    | exact statusUpdate_inv _ _ _ hinv
    | exact alarmTrigger_inv _ _ _ hinv
    | exact nameReply_inv _ _ _ hinv
    | exact k2Name_inv _ _ _ hinv
    | exact k2Status_inv _ _ _ hinv

/-- **C10**: registry key coherence.  `_get_or_create_device` returns the
existing record unchanged or appends a fresh record with the constructor
defaults (state unknown, battery −1, no name, no last-seen); the key
invariant "every stored record's `id` equals its key" is preserved by
get-or-create and by every message-handling path, and no handler ever
removes an existing key. -/
theorem C10_registry_coherence :
    (∀ (k : Int) (r : Reg) (d : ElroDevice), rlookup k r = some d →
      _get_or_create_device k r = (r, d)) ∧
    (∀ (k : Int) (r : Reg), rlookup k r = none →
      _get_or_create_device k r = (r ++ [(k, mkDev k)], mkDev k) ∧
      mkDev k = { id := k, name := none, device_type := none,
                  state := DEVICE_STATE_UNKNOWN, battery_level := -1,
                  last_seen := none }) ∧
    (∀ (k : Int) (r : Reg), RegInv r → RegInv ((_get_or_create_device k r).1)) ∧
    (∀ (msg : Json) (now : Nat) (r : Reg), RegInv r →
      RegInv (_async_handle_message msg now r) ∧
      ∀ j, (rlookup j r).isSome →
        (rlookup j (_async_handle_message msg now r)).isSome) := by
  refine ⟨?_, ?_, ?_, ?_⟩
  · intro k r d h
    rw [_get_or_create_device, h]
  · intro k r h
    rw [_get_or_create_device, h]
    exact ⟨rfl, rfl⟩
  · intro k r hinv
    exact inv_getOrCreate hinv
  · intro msg now r hinv
    exact handleMessage_inv msg now r hinv

/-- Witness for C10: get-or-create returns an existing record unmodified,
creates a fresh defaulted record on a miss, and the dispatcher preserves the
key invariant and the existing key on the CMD 55 test message. -/
theorem C10_registry_coherence_witness :
    _get_or_create_device 1 [(1, mkDev 1)] = ([(1, mkDev 1)], mkDev 1) ∧
    _get_or_create_device 2 [] = ([(2, mkDev 2)], mkDev 2) ∧
    (rlookup 1 (_async_handle_message (.obj (.cons (chars "action")
      (.str (chars "NODE_SEND")) (.cons (chars "msg") (.obj msgC3) .nil))) 0
      [(1, mkDev 1)])).isSome := by
  refine ⟨C10_registry_coherence.1 1 [(1, mkDev 1)] (mkDev 1) rfl,
    (C10_registry_coherence.2.1 2 [] rfl).1,
    (C10_registry_coherence.2.2.2 _ 0 [(1, mkDev 1)] ?_).2 1 rfl⟩
  intro p hp
  rcases List.mem_singleton.mp hp with rfl
  rfl

/-! ## Connection lifecycle (`hub.py`), sequentialised over an I/O oracle -/

/-- The two exception classes that can cross `async_start`'s boundary:
socket construction failure in `_async_connect`, and a send failure
re-raised by `_async_send_data`/`_async_send_data_raw`. -/
inductive IOErr where
  | socketFail : IOErr
  | sendFail : IOErr
deriving DecidableEq

/-- The connection-level fields touched by connect/reconnect/send:
`_socket`, `_receive_task`, `_connection_issues`. -/
structure Net where
  socketOpen : Bool
  receiveTask : Bool
  connectionIssues : Nat
deriving DecidableEq

mutual
/-- `_async_send_data_raw` / `_async_send_data` failure handling: consume one
I/O outcome; on failure increment `_connection_issues`, reconnect at the
threshold of 3, and re-raise.  An exhausted oracle means success. -/
def sendRawN : Net → List Bool → Net × List Bool × Option IOErr
  | n, [] => (n, [], none)
  | n, true :: o => (n, o, none)
  | n, false :: o =>
    let n1 : Net := { n with connectionIssues := n.connectionIssues + 1 }
    if 3 ≤ n1.connectionIssues then
      let r := reconnectN n1 o
      (r.1, r.2.1, some .sendFail)
    else (n1, o, some .sendFail)
termination_by n o => (o.length, 0)
decreasing_by
  exact Prod.Lex.left _ _ (by simp only [List.length_cons]; omega)

/-- `_async_connect`: close any socket, create a new one (consuming one I/O
outcome), send the `IOT_KEY` handshake, then reset the failure counter. -/
def connectN : Net → List Bool → Net × List Bool × Option IOErr
  | n, [] =>
    let n1 : Net := { n with socketOpen := true }
    let r := sendRawN n1 []
    match r.2.2 with
    | some e => (r.1, r.2.1, some e)
    | none => ({ r.1 with connectionIssues := 0 }, r.2.1, none)
  | n, ok :: o =>
    let n0 : Net := { n with socketOpen := false }
    if ok then
      let n1 : Net := { n0 with socketOpen := true }
      let r := sendRawN n1 o
      match r.2.2 with
      | some e => (r.1, r.2.1, some e)
      | none => ({ r.1 with connectionIssues := 0 }, r.2.1, none)
    else (n0, o, some .socketFail)
termination_by n o => (o.length, 1)
decreasing_by
  all_goals first
    | exact Prod.Lex.right _ (by omega)
    | exact Prod.Lex.left _ _ (by simp only [List.length_cons]; omega)

/-- `_async_reconnect`: cancel only the receive task, reconnect, restart the
receive task; device registry and callbacks are untouched by construction. -/
def reconnectN : Net → List Bool → Net × List Bool × Option IOErr
  | n, o =>
    let n1 : Net := { n with receiveTask := false }
    let r := connectN n1 o
    match r.2.2 with
    | some e => (r.1, r.2.1, some e)
    | none => ({ r.1 with receiveTask := true }, r.2.1, none)
termination_by n o => (o.length, 2)
decreasing_by
  exact Prod.Lex.right _ (by omega)
end

/-- The hub object's state (`ElroConnectsHub.__init__` fields; time-stamp
fields are passed explicitly where needed). -/
structure HubState where
  host : List Char
  running : Bool
  reloading : Bool
  heartbeatTask : Bool
  resetTask : Bool
  net : Net
  msgId : Nat
  callbacks : List Nat
  devices : Reg
  detected : Option (List Char)
  force : Option (List Char)
  useK2 : Bool
deriving DecidableEq

/-- Python truthiness of an optional string (`None` and `""` are falsy). -/
def truthyS : Option (List Char) → Bool
  | none => false
  | some s => s ≠ []

/-- `str.upper()` (ASCII). -/
def pyUpper (s : List Char) : List Char := s.map Char.toUpper

/-- The `protocol` property: the forced protocol uppercased if truthy, else
the detected protocol if truthy, else `"UNKNOWN"`. -/
def protocolOf (s : HubState) : List Char :=
  if truthyS s.force then pyUpper (s.force.getD [])
  else if truthyS s.detected then s.detected.getD []
  else chars "UNKNOWN"

/-- `ElroConnectsHub.__init__`: auto-detect unless a valid protocol is
forced. -/
def initHub (host : List Char) (force : Option (List Char)) : HubState :=
  let fOK := truthyS force &&
    (pyUpper (force.getD []) = chars "K1" || pyUpper (force.getD []) = chars "K2")
  { host := host, running := false, reloading := false,
    heartbeatTask := false, resetTask := false,
    net := { socketOpen := false, receiveTask := false, connectionIssues := 0 },
    msgId := 0, callbacks := [], devices := [],
    detected := if fOK then some (pyUpper (force.getD [])) else none,
    force := force,
    useK2 := fOK && (pyUpper (force.getD []) = chars "K2") }

/-- `async_stop`: stop the loops, close the socket, and clear the callbacks
unless a safe reload is in progress. -/
def async_stop (s : HubState) : HubState :=
  { s with
    running := false,
    net := { s.net with receiveTask := false, socketOpen := false },
    heartbeatTask := false, resetTask := false,
    callbacks := if s.reloading then s.callbacks else [] }

/-- `_async_reconnect` lifted to the hub state. -/
def _async_reconnect (s : HubState) (o : List Bool) :
    HubState × List Bool × Option IOErr :=
  let r := reconnectN s.net o
  ({ s with net := r.1 }, r.2.1, r.2.2)

/-- `_async_send_data` lifted to the hub state. -/
def sendH (s : HubState) (o : List Bool) : HubState × List Bool × Option IOErr :=
  let r := sendRawN s.net o
  ({ s with net := r.1 }, r.2.1, r.2.2)

/-- A command API call (`async_sync_devices` and friends):
`_construct_message` increments `_msg_id`, then the message is sent. -/
def sendCommand (s : HubState) (o : List Bool) : HubState × List Bool × Option IOErr :=
  sendH { s with msgId := s.msgId + 1 } o

/-- `async_start`: no-op when already running; otherwise connect, spawn the
three loops, and issue the three initial requests (`async_get_device_names`,
`async_sync_devices`, `async_sync_device_status`); any exception runs
`async_stop` and re-raises. -/
def async_start (s : HubState) (o : List Bool) :
    HubState × List Bool × Option IOErr :=
  if s.running then (s, o, none)
  else
    -- `_running := True`, `_reloading := False` are set before connecting;
    -- they do not affect the socket fields `connectN` reads.
    match connectN s.net o with
    | (n, o1, some e) =>
      (async_stop { s with running := true, reloading := false, net := n }, o1, some e)
    | (n, o1, none) =>
      match sendCommand { s with
          running := true, reloading := false,
          net := { n with receiveTask := true },
          heartbeatTask := true, resetTask := true } o1 with
      | (t1, o2, some e) => (async_stop t1, o2, some e)
      | (t1, o2, none) =>
        match sendCommand t1 o2 with
        | (t2, o3, some e) => (async_stop t2, o3, some e)
        | (t2, o3, none) =>
          match sendCommand t2 o3 with
          | (t3, o4, some e) => (async_stop t3, o4, some e)
          | (t3, o4, none) => (t3, o4, none)

/-- `async_reload_safe`: set the reload flag, reconnect, re-issue the status
and name syncs, refresh every device's `last_seen` (notifying consumers),
then clear the flag; an exception propagates. -/
def async_reload_safe (s : HubState) (o : List Bool) (now : Nat) :
    HubState × List Bool × Option IOErr :=
  match _async_reconnect { s with reloading := true } o with
  | (s2, o1, some e) => (s2, o1, some e)
  | (s2, o1, none) =>
    match sendCommand s2 o1 with
    | (s3, o2, some e) => (s3, o2, some e)
    | (s3, o2, none) =>
      match sendCommand s3 o2 with
      | (s4, o3, some e) => (s4, o3, some e)
      | (s4, o3, none) =>
        ({ s4 with
           devices := s4.devices.map
             (fun (p : Int × ElroDevice) => (p.1, { p.2 with last_seen := some now })),
           reloading := false }, o3, none)

/-- `add_device_update_callback`: append only when not yet registered. -/
def add_device_update_callback (c : Nat) (s : HubState) : HubState :=
  { s with callbacks := if c ∈ s.callbacks then s.callbacks else s.callbacks ++ [c] }

/-- `remove_device_update_callback`: remove the first occurrence when
registered, else do nothing. -/
def remove_device_update_callback (c : Nat) (s : HubState) : HubState :=
  { s with callbacks := if c ∈ s.callbacks then s.callbacks.erase c else s.callbacks }

/-- `_async_notify_device_update` invokes the registered callbacks in order
(a raising callback is caught and logged): the invocation sequence is
exactly the callback list. -/
def notifySequence (s : HubState) : List Nat := s.callbacks

/-- `"action" in msg and "msg" in msg and "CMD_CODE" in msg.get("msg", {})`
(the K2-structure test of the receive loop). -/
def isK2Envelope : Json → Bool
  | .obj mm =>
    (mget (chars "action") mm).isSome &&
      (match mget (chars "msg") mm with
       | some (.obj inner) => (mget (chars "CMD_CODE") inner).isSome
       | _ => false)
  | _ => false

/-- `"params" in msg and "data" in msg["params"]` (the K1-structure test). -/
def isK1Envelope : Json → Bool
  | .obj mm =>
    (match mget (chars "params") mm with
     | some (.obj pm) => (mget (chars "data") pm).isSome
     | _ => false)
  | _ => false

/-- `msg.get("action") == "NODE_ACK"`. -/
def isNodeAck : Json → Bool
  | .obj mm => mget (chars "action") mm = some (.str (chars "NODE_ACK"))
  | _ => false

/-- The literal connection acknowledgment string. -/
def stAnswerOk : List Char := '{' :: (chars "ST_answer_OK" ++ ['}'])

/-- The binary / undecodable-text fallback of the receive loop: try K2
decoding and dispatch on success, drop on failure. -/
def k2Fallback (data : List Nat) (now : Nat) (s : HubState) : HubState :=
  match decode_k2_message data with
  | some j => { s with devices := _async_handle_message j now s.devices }
  | none => s

/-- One iteration of `_async_receive_data` on a received datagram: decode the
text, detect the protocol once (guarded by `not detected and not forced`),
dispatch device-bearing envelopes, and fall back to K2 binary decoding on
UTF-8 or JSON failure.  Acknowledgment replies are sends and do not affect
this state. -/
def receiveStep (data : List Nat) (addr : List Char) (now : Nat) (s : HubState) :
    HubState :=
  match utf8Decode data with
  | some txt =>
    let reply := pyStrip txt
    match reply with
    | '{' :: _ =>
      match jsonParse reply with
      | some msg =>
        if isK2Envelope msg then
          let s1 :=
            if isNodeAck msg then
              (if !truthyS s.detected && !truthyS s.force then
                (if addr = s.host then
                   { s with detected := some (chars "K2"), useK2 := true }
                 else { s with detected := some (chars "K1 (mixed)") })
               else s)
            else s
          { s1 with devices := _async_handle_message msg now s1.devices }
        else if isK1Envelope msg then
          let s1 :=
            if !truthyS s.detected && !truthyS s.force then
              { s with detected := some (chars "K1"), useK2 := false }
            else s
          { s1 with devices := _async_handle_message msg now s1.devices }
        else if reply = stAnswerOk then s
        else { s with devices := _async_handle_message msg now s.devices }
      | none => k2Fallback data now s
    | _ => s
  | none => k2Fallback data now s

theorem protocolOf_congr {s s' : HubState} (h1 : s'.detected = s.detected)
    (h2 : s'.force = s.force) : protocolOf s' = protocolOf s := by
  rw [protocolOf, protocolOf, h1, h2]

theorem truthy_of_protocol {s : HubState} (h : protocolOf s ≠ chars "UNKNOWN") :
    (truthyS s.detected || truthyS s.force) = true := by
  rw [protocolOf] at h
  by_cases hf : truthyS s.force
  · simp [hf]
  · rw [if_neg hf] at h
    by_cases hd : truthyS s.detected
    · simp [hd]
    · rw [if_neg hd] at h
      exact absurd rfl h

/-- Field preservation of a command send: only `net` and `msgId` change. -/
theorem sendCommand_pres (s : HubState) (o : List Bool) :
    (sendCommand s o).1.detected = s.detected ∧ (sendCommand s o).1.force = s.force ∧
    (sendCommand s o).1.devices = s.devices ∧ (sendCommand s o).1.callbacks = s.callbacks ∧
    (sendCommand s o).1.reloading = s.reloading ∧ (sendCommand s o).1.running = s.running :=
  ⟨rfl, rfl, rfl, rfl, rfl, rfl⟩

/-- Field preservation of a reconnect: only `net` changes. -/
theorem reconnect_pres (s : HubState) (o : List Bool) :
    (_async_reconnect s o).1.detected = s.detected ∧
    (_async_reconnect s o).1.force = s.force ∧
    (_async_reconnect s o).1.devices = s.devices ∧
    (_async_reconnect s o).1.callbacks = s.callbacks ∧
    (_async_reconnect s o).1.reloading = s.reloading ∧
    (_async_reconnect s o).1.running = s.running :=
  ⟨rfl, rfl, rfl, rfl, rfl, rfl⟩

/-- **C7**: protocol detection is one-shot.  Once `protocol` is non-Unknown
(detected or forced), no received datagram and no lifecycle operation
(stop, reconnect, safe reload, start, subscribe, unsubscribe) changes the
detected or forced protocol, so the `protocol` property is constant for the
rest of the session. -/
theorem C7_protocol_one_shot :
    (∀ (s : HubState) (data : List Nat) (addr : List Char) (now : Nat),
      protocolOf s ≠ chars "UNKNOWN" →
      (receiveStep data addr now s).detected = s.detected ∧
      (receiveStep data addr now s).force = s.force ∧
      protocolOf (receiveStep data addr now s) = protocolOf s) ∧
    (∀ s : HubState, (async_stop s).detected = s.detected ∧
      (async_stop s).force = s.force) ∧
    (∀ (s : HubState) (o : List Bool), ((_async_reconnect s o).1).detected = s.detected ∧
      ((_async_reconnect s o).1).force = s.force) ∧
    (∀ (s : HubState) (o : List Bool) (now : Nat),
      ((async_reload_safe s o now).1).detected = s.detected ∧
      ((async_reload_safe s o now).1).force = s.force) ∧
    (∀ (s : HubState) (o : List Bool), ((async_start s o).1).detected = s.detected ∧
      ((async_start s o).1).force = s.force) ∧
    (∀ (s : HubState) (c : Nat), (add_device_update_callback c s).detected = s.detected ∧
      (add_device_update_callback c s).force = s.force ∧
      (remove_device_update_callback c s).detected = s.detected ∧
      (remove_device_update_callback c s).force = s.force) := by
  refine ⟨?_, fun s => ⟨rfl, rfl⟩, fun s o => ⟨rfl, rfl⟩, ?_, ?_, fun s c => ⟨rfl, rfl, rfl, rfl⟩⟩
  · intro s data addr now hptc
    have htf := truthy_of_protocol hptc
    have hpair : (receiveStep data addr now s).detected = s.detected ∧
        (receiveStep data addr now s).force = s.force := by
      simp only [receiveStep, k2Fallback]
      repeat' split
      all_goals simp_all
    exact ⟨hpair.1, hpair.2, protocolOf_congr hpair.1 hpair.2⟩
  · intro s o now
    rw [async_reload_safe]
    rcases hrc : _async_reconnect { s with reloading := true } o with ⟨s2, o1, err1⟩
    have h2d : s2.detected = s.detected := by
      rw [show s2 = (_async_reconnect { s with reloading := true } o).1 from by rw [hrc]]
      exact (reconnect_pres _ _).1
    have h2f : s2.force = s.force := by
      rw [show s2 = (_async_reconnect { s with reloading := true } o).1 from by rw [hrc]]
      exact (reconnect_pres _ _).2.1
    cases err1 with
    | some e => simp only [hrc]; exact ⟨h2d, h2f⟩
    | none =>
      simp only [hrc]
      rcases hc1 : sendCommand s2 o1 with ⟨s3, o2, err2⟩
      have h3d : s3.detected = s2.detected := by
        rw [show s3 = (sendCommand s2 o1).1 from by rw [hc1]]
        exact (sendCommand_pres _ _).1
      have h3f : s3.force = s2.force := by
        rw [show s3 = (sendCommand s2 o1).1 from by rw [hc1]]
        exact (sendCommand_pres _ _).2.1
      cases err2 with
      | some e => simp only [hc1]; exact ⟨h3d.trans h2d, h3f.trans h2f⟩
      | none =>
        simp only [hc1]
        rcases hc2 : sendCommand s3 o2 with ⟨s4, o3, err3⟩
        have h4d : s4.detected = s3.detected := by
          rw [show s4 = (sendCommand s3 o2).1 from by rw [hc2]]
          exact (sendCommand_pres _ _).1
        have h4f : s4.force = s3.force := by
          rw [show s4 = (sendCommand s3 o2).1 from by rw [hc2]]
          exact (sendCommand_pres _ _).2.1
        cases err3 with
        | some e => simp only [hc2]; exact ⟨h4d.trans (h3d.trans h2d), h4f.trans (h3f.trans h2f)⟩
        | none =>
          simp only [hc2]
          exact ⟨h4d.trans (h3d.trans h2d), h4f.trans (h3f.trans h2f)⟩
  · intro s o
    by_cases hr : s.running
    · rw [async_start, if_pos hr]
      exact ⟨rfl, rfl⟩
    · rw [async_start, if_neg hr]
      rcases hrc : connectN s.net o with ⟨n, o1, err1⟩
      cases err1 with
      | some e => exact ⟨rfl, rfl⟩
      | none =>
        rcases hc1 : sendCommand { s with
            running := true, reloading := false,
            net := { n with receiveTask := true },
            heartbeatTask := true, resetTask := true } o1 with ⟨t1, o2, err2⟩
        have h1d : t1.detected = s.detected := by
          rw [show t1 = (sendCommand { s with
              running := true, reloading := false,
              net := { n with receiveTask := true },
              heartbeatTask := true, resetTask := true } o1).1 from by rw [hc1]]
          exact (sendCommand_pres _ _).1
        have h1f : t1.force = s.force := by
          rw [show t1 = (sendCommand { s with
              running := true, reloading := false,
              net := { n with receiveTask := true },
              heartbeatTask := true, resetTask := true } o1).1 from by rw [hc1]]
          exact (sendCommand_pres _ _).2.1
        cases err2 with
        | some e => simp only [hc1]; exact ⟨h1d, h1f⟩
        | none =>
          simp only [hc1]
          rcases hc2 : sendCommand t1 o2 with ⟨t2, o3, err3⟩
          have h2d : t2.detected = t1.detected := by
            rw [show t2 = (sendCommand t1 o2).1 from by rw [hc2]]
            exact (sendCommand_pres _ _).1
          have h2f : t2.force = t1.force := by
            rw [show t2 = (sendCommand t1 o2).1 from by rw [hc2]]
            exact (sendCommand_pres _ _).2.1
          cases err3 with
          | some e => simp only [hc2]; exact ⟨h2d.trans h1d, h2f.trans h1f⟩
          | none =>
            simp only [hc2]
            rcases hc3 : sendCommand t2 o3 with ⟨t3, o4, err4⟩
            have h3d : t3.detected = t2.detected := by
              rw [show t3 = (sendCommand t2 o3).1 from by rw [hc3]]
              exact (sendCommand_pres _ _).1
            have h3f : t3.force = t2.force := by
              rw [show t3 = (sendCommand t2 o3).1 from by rw [hc3]]
              exact (sendCommand_pres _ _).2.1
            cases err4 with
            | some e =>
              simp only [hc3]
              exact ⟨h3d.trans (h2d.trans h1d), h3f.trans (h2f.trans h1f)⟩
            | none =>
              simp only [hc3]
              exact ⟨h3d.trans (h2d.trans h1d), h3f.trans (h2f.trans h1f)⟩

/-- A hub that has already detected K1. -/
def hubK1 : HubState := { initHub (chars "h") none with detected := some (chars "K1") }

/-- Witness for C7: a K1-locked hub keeps its protocol across a received
binary datagram. -/
theorem C7_protocol_one_shot_witness :
    (receiveStep [255, 255] (chars "addr") 0 hubK1).detected = some (chars "K1") ∧
    protocolOf (receiveStep [255, 255] (chars "addr") 0 hubK1) = protocolOf hubK1 := by
  have h := C7_protocol_one_shot.1 hubK1 [255, 255] (chars "addr") 0 (by decide)
  exact ⟨by rw [h.1]; rfl, h.2.2⟩

theorem async_stop_stopped (s : HubState) (h : s.reloading = false) :
    (async_stop s).running = false ∧ (async_stop s).net.receiveTask = false ∧
    (async_stop s).heartbeatTask = false ∧ (async_stop s).resetTask = false ∧
    (async_stop s).net.socketOpen = false ∧ (async_stop s).callbacks = [] := by
  simp [async_stop, h]

/-- **C5** (amended): whenever `async_start` raises — which it does on a
socket-construction failure and also on a send failure during the handshake
or any of the three initial requests — startup is aborted through
`async_stop`, leaving the stopped state: not running, receive, heartbeat and
reset tasks cleared, socket closed, callbacks cleared.  (As frozen —「the
only error surfaced to the caller of `start()` is a fatal
socket-construction failure」— the claim fails: see the counterexample.) -/
theorem C5_start_failure_stops (s : HubState) (o : List Bool) (e : IOErr)
    (h : (async_start s o).2.2 = some e) :
    ((async_start s o).1).running = false ∧
    ((async_start s o).1).net.receiveTask = false ∧
    ((async_start s o).1).heartbeatTask = false ∧
    ((async_start s o).1).resetTask = false ∧
    ((async_start s o).1).net.socketOpen = false ∧
    ((async_start s o).1).callbacks = [] := by
  by_cases hr : s.running
  · rw [async_start, if_pos hr] at h
    simp at h
  · rw [async_start, if_neg hr] at h ⊢
    rcases hrc : connectN s.net o with ⟨n, o1, err1⟩
    cases err1 with
    | some e1 => exact async_stop_stopped _ rfl
    | none =>
      dsimp only at h ⊢
      rcases hc1 : sendCommand { s with
          running := true, reloading := false,
          net := { n with receiveTask := true },
          heartbeatTask := true, resetTask := true } o1 with ⟨t1, o2, err2⟩
      have ht1 : t1.reloading = false := by
        rw [show t1 = (sendCommand { s with
            running := true, reloading := false,
            net := { n with receiveTask := true },
            heartbeatTask := true, resetTask := true } o1).1 from by rw [hc1]]
        exact (sendCommand_pres _ _).2.2.2.2.1
      cases err2 with
      | some e2 => exact async_stop_stopped _ ht1
      | none =>
        dsimp only at h ⊢
        rcases hc2 : sendCommand t1 o2 with ⟨t2, o3, err3⟩
        have ht2 : t2.reloading = false := by
          rw [show t2 = (sendCommand t1 o2).1 from by rw [hc2]]
          exact ((sendCommand_pres _ _).2.2.2.2.1).trans ht1
        cases err3 with
        | some e3 => exact async_stop_stopped _ ht2
        | none =>
          dsimp only at h ⊢
          rcases hc3 : sendCommand t2 o3 with ⟨t3, o4, err4⟩
          have ht3 : t3.reloading = false := by
            rw [show t3 = (sendCommand t2 o3).1 from by rw [hc3]]
            exact ((sendCommand_pres _ _).2.2.2.2.1).trans ht2
          cases err4 with
          | some e4 => exact async_stop_stopped _ ht3
          | none =>
            simp only [hrc, hc1, hc2, hc3] at h
            exact Option.noConfusion h

/-- Witness for C5: a socket-construction failure at startup leaves a fresh
hub stopped. -/
theorem C5_start_failure_stops_witness :
    ((async_start (initHub (chars "h") none) [false]).1).running = false ∧
    ((async_start (initHub (chars "h") none) [false]).1).callbacks = [] := by
  have h : (async_start (initHub (chars "h") none) [false]).2.2 =
      some IOErr.socketFail := by
    simp [async_start, initHub, connectN, async_stop, truthyS, pyUpper, chars]
  have := C5_start_failure_stops (initHub (chars "h") none) [false] IOErr.socketFail h
  exact ⟨this.1, this.2.2.2.2.2⟩

/-- Counterexample to C5 as frozen: with the socket construction and the
handshake succeeding but the first initial request failing to send,
`async_start` surfaces a send failure — not a socket-construction failure —
to its caller. -/
theorem C5_start_failure_counterexample :
    (async_start (initHub (chars "h") none) [true, true, false]).2.2 =
      some IOErr.sendFail ∧ IOErr.sendFail ≠ IOErr.socketFail := by
  constructor
  · simp [async_start, initHub, connectN, sendRawN, sendCommand, sendH, async_stop,
      truthyS, pyUpper, chars]
  · decide

theorem rlookup_mapVals (f : ElroDevice → ElroDevice) (k : Int) (r : Reg) :
    rlookup k (r.map (fun p => (p.1, f p.2))) = (rlookup k r).map f := by
  induction r with
  | nil => rfl
  | cons p t ih =>
    obtain ⟨k0, d0⟩ := p
    by_cases hk : k0 = k
    · simp [rlookup, hk]
    · simp only [List.map_cons, rlookup, if_neg hk]
      exact ih

/-- **C8**: a reconnect leaves the device registry and the callback list
identical; a safe reload leaves the callbacks identical and keeps every
known device with unchanged name and type (only `last_seen` may advance);
and only a full stop (outside a reload) clears the callbacks. -/
theorem C8_reconnect_preserves_state :
    (∀ (s : HubState) (o : List Bool),
      ((_async_reconnect s o).1).devices = s.devices ∧
      ((_async_reconnect s o).1).callbacks = s.callbacks) ∧
    (∀ (s : HubState) (o : List Bool) (now : Nat),
      ((async_reload_safe s o now).1).callbacks = s.callbacks ∧
      (∀ (k : Int) (d : ElroDevice), rlookup k s.devices = some d →
        ∃ d', rlookup k ((async_reload_safe s o now).1).devices = some d' ∧
          d'.name = d.name ∧ d'.device_type = d.device_type ∧ d'.id = d.id)) ∧
    (∀ s : HubState, s.reloading = false → (async_stop s).callbacks = [] ∧
      (async_stop s).devices = s.devices) ∧
    (∀ s : HubState, s.reloading = true → (async_stop s).callbacks = s.callbacks) := by
  refine ⟨fun s o => ⟨rfl, rfl⟩, ?_, ?_, ?_⟩
  · intro s o now
    rw [async_reload_safe]
    rcases hrc : _async_reconnect { s with reloading := true } o with ⟨s2, o1, err1⟩
    have h2 : s2.devices = s.devices ∧ s2.callbacks = s.callbacks := by
      rw [show s2 = (_async_reconnect { s with reloading := true } o).1 from by rw [hrc]]
      exact ⟨(reconnect_pres _ _).2.2.1, (reconnect_pres _ _).2.2.2.1⟩
    cases err1 with
    | some e =>
      refine ⟨h2.2, fun k d hd => ⟨d, ?_, rfl, rfl, rfl⟩⟩
      rw [h2.1]
      exact hd
    | none =>
      dsimp only
      rcases hc1 : sendCommand s2 o1 with ⟨s3, o2, err2⟩
      have h3 : s3.devices = s2.devices ∧ s3.callbacks = s2.callbacks := by
        rw [show s3 = (sendCommand s2 o1).1 from by rw [hc1]]
        exact ⟨(sendCommand_pres _ _).2.2.1, (sendCommand_pres _ _).2.2.2.1⟩
      cases err2 with
      | some e =>
        refine ⟨h3.2.trans h2.2, fun k d hd => ⟨d, ?_, rfl, rfl, rfl⟩⟩
        rw [h3.1, h2.1]
        exact hd
      | none =>
        dsimp only
        rcases hc2 : sendCommand s3 o2 with ⟨s4, o3, err3⟩
        have h4 : s4.devices = s3.devices ∧ s4.callbacks = s3.callbacks := by
          rw [show s4 = (sendCommand s3 o2).1 from by rw [hc2]]
          exact ⟨(sendCommand_pres _ _).2.2.1, (sendCommand_pres _ _).2.2.2.1⟩
        cases err3 with
        | some e =>
          refine ⟨h4.2.trans (h3.2.trans h2.2), fun k d hd => ⟨d, ?_, rfl, rfl, rfl⟩⟩
          rw [h4.1, h3.1, h2.1]
          exact hd
        | none =>
          dsimp only
          refine ⟨h4.2.trans (h3.2.trans h2.2), fun k d hd => ?_⟩
          refine ⟨{ d with last_seen := some now }, ?_, rfl, rfl, rfl⟩
          show rlookup k (s4.devices.map
            (fun p => (p.1, { p.2 with last_seen := some now }))) = _
          rw [rlookup_mapVals (fun d => { d with last_seen := some now }) k s4.devices,
            h4.1, h3.1, h2.1, hd]
          rfl
  · intro s h
    constructor
    · simp [async_stop, h]
    · rfl
  · intro s h
    simp [async_stop, h]

/-- A hub holding one known device and one registered callback. -/
def hubC8 : HubState :=
  { initHub (chars "h") none with devices := [(1, mkDev 1)], callbacks := [7] }

/-- Witness for C8: concrete reconnect/stop/reload on a one-device,
one-callback hub. -/
theorem C8_reconnect_preserves_state_witness :
    ((_async_reconnect hubC8 [true, true]).1).devices = hubC8.devices ∧
    (async_stop hubC8).callbacks = [] ∧
    ((async_reload_safe hubC8 [true, true, true, true] 9).1).callbacks = [7] ∧
    (∃ d', rlookup 1 ((async_reload_safe hubC8 [true, true, true, true] 9).1).devices =
        some d' ∧ d'.name = none ∧ d'.id = 1) := by
  refine ⟨(C8_reconnect_preserves_state.1 hubC8 [true, true]).1,
    (C8_reconnect_preserves_state.2.2.1 hubC8 rfl).1,
    (C8_reconnect_preserves_state.2.1 hubC8 [true, true, true, true] 9).1, ?_⟩
  obtain ⟨d', h1, h2, h3, h4⟩ :=
    (C8_reconnect_preserves_state.2.1 hubC8 [true, true, true, true] 9).2 1 (mkDev 1) rfl
  exact ⟨d', h1, by rw [h2]; rfl, by rw [h4]; rfl⟩

/-- **C9**: subscription is idempotent — subscribing a callback twice equals
subscribing it once, a publish then invokes it exactly once (the invocation
sequence holds exactly one occurrence), unsubscribing an unregistered
callback is a no-op, and both operations preserve duplicate-freedom of the
registry (which holds initially, the list starting empty). -/
theorem C9_subscribe_idempotent :
    (∀ (s : HubState) (c : Nat),
      add_device_update_callback c (add_device_update_callback c s) =
        add_device_update_callback c s) ∧
    (∀ (s : HubState) (c : Nat), s.callbacks.Nodup →
      (notifySequence (add_device_update_callback c
        (add_device_update_callback c s))).count c = 1) ∧
    (∀ (s : HubState) (c : Nat), c ∉ s.callbacks →
      remove_device_update_callback c s = s) ∧
    (∀ (s : HubState) (c : Nat), s.callbacks.Nodup →
      (add_device_update_callback c s).callbacks.Nodup ∧
      (remove_device_update_callback c s).callbacks.Nodup) := by
  have haddtwice : ∀ (s : HubState) (c : Nat),
      add_device_update_callback c (add_device_update_callback c s) =
        add_device_update_callback c s := by
    intro s c
    by_cases hc : c ∈ s.callbacks
    · simp [add_device_update_callback, hc]
    · simp [add_device_update_callback, hc]
  refine ⟨haddtwice, ?_, ?_, ?_⟩
  · intro s c hnd
    rw [notifySequence, haddtwice]
    by_cases hc : c ∈ s.callbacks
    · simp only [add_device_update_callback, if_pos hc]
      exact List.count_eq_one_of_mem hnd hc
    · simp only [add_device_update_callback, if_neg hc]
      rw [List.count_append]
      simp [List.count_eq_zero_of_not_mem hc]
  · intro s c hc
    simp [remove_device_update_callback, hc]
  · intro s c hnd
    constructor
    · by_cases hc : c ∈ s.callbacks
      · simpa [add_device_update_callback, hc] using hnd
      · simp only [add_device_update_callback, if_neg hc]
        simp [List.nodup_append, hnd, hc]
    · by_cases hc : c ∈ s.callbacks
      · simp only [remove_device_update_callback, if_pos hc]
        exact hnd.erase c
      · simpa [remove_device_update_callback, hc] using hnd

/-- Witness for C9: on a fresh hub, double-subscribing callback 7 yields
exactly one invocation per publish, and unsubscribing it before registration
changes nothing. -/
theorem C9_subscribe_idempotent_witness :
    (notifySequence (add_device_update_callback 7
      (add_device_update_callback 7 (initHub (chars "h") none)))).count 7 = 1 ∧
    remove_device_update_callback 7 (initHub (chars "h") none) =
      initHub (chars "h") none := by
  refine ⟨C9_subscribe_idempotent.2.1 (initHub (chars "h") none) 7 ?_,
    C9_subscribe_idempotent.2.2.1 (initHub (chars "h") none) 7 ?_⟩
  · simp [initHub]
  · simp [initHub]
